import Mathlib

/-!
Verification of the CDS survival-curve calibration notebook.

The source is a Python notebook that bootstraps a piecewise-constant hazard
curve from market CDS spreads (Newton-Raphson on a premium/protection-leg
parity equation) and prices contracts against it.  The development below is a
shallow embedding: Python `datetime.date` values become a `Date` structure
with proleptic-Gregorian ordinal arithmetic (Python's `date.toordinal`),
floats become `ℝ`, dicts become functions or association lists, and the
`while` loops become fuel-indexed recursions whose fuel sufficiency is proved.
-/

namespace CdsValuation

/-- Calendar date, mirroring Python `datetime.date` (proleptic Gregorian). -/
structure Date where
  year : Nat
  month : Nat
  day : Nat
deriving DecidableEq

/-- Chronological strict order on dates; Python compares dates this way. -/
def Date.lt (a b : Date) : Prop :=
  a.year < b.year ∨ (a.year = b.year ∧
    (a.month < b.month ∨ (a.month = b.month ∧ a.day < b.day)))

/-- Chronological order on dates. -/
def Date.le (a b : Date) : Prop := Date.lt a b ∨ a = b

instance : LT Date := ⟨Date.lt⟩

instance : LE Date := ⟨Date.le⟩

instance decDateLt (a b : Date) : Decidable (a < b) := by
  show Decidable (Date.lt a b)
  unfold Date.lt
  infer_instance

instance decDateLe (a b : Date) : Decidable (a ≤ b) := by
  show Decidable (Date.le a b)
  unfold Date.le Date.lt
  infer_instance

/-- Gregorian leap-year test. -/
def isLeap (y : Nat) : Bool := y % 4 == 0 && (y % 100 != 0 || y % 400 == 0)

/-- Number of days in a month. -/
def daysInMonth (y m : Nat) : Nat :=
  if m = 2 then (if isLeap y then 29 else 28)
  else if m = 4 ∨ m = 6 ∨ m = 9 ∨ m = 11 then 30
  else 31

/-- Cumulative days before month `m` in a non-leap year. -/
def daysBeforeMonthCommon (m : Nat) : Nat :=
  match m with
  | 1 => 0 | 2 => 31 | 3 => 59 | 4 => 90 | 5 => 120 | 6 => 151 | 7 => 181
  | 8 => 212 | 9 => 243 | 10 => 273 | 11 => 304 | 12 => 334 | _ => 365

/-- Cumulative days in year `y` strictly before month `m`. -/
def daysBeforeMonth (y m : Nat) : Nat :=
  daysBeforeMonthCommon m + (if 3 ≤ m ∧ isLeap y then 1 else 0)

/-- Number of leap years among years `1 .. y-1`. -/
def leapsBefore (y : Nat) : Nat := (y-1)/4 - (y-1)/100 + (y-1)/400

/-- Python's `date.toordinal`: day number with `0001-01-01` as day 1. -/
def toOrdinal (d : Date) : Nat :=
  365 * (d.year - 1) + leapsBefore d.year + daysBeforeMonth d.year d.month + d.day

/-- Python's `date.weekday`: Monday = 0, ..., Sunday = 6. -/
def weekday (d : Date) : Nat := (toOrdinal d - 1) % 7

/-- Advance a date by one calendar day. -/
def addOneDay (d : Date) : Date :=
  if d.day < daysInMonth d.year d.month then ⟨d.year, d.month, d.day + 1⟩
  else if d.month < 12 then ⟨d.year, d.month + 1, 1⟩
  else ⟨d.year + 1, 1, 1⟩

/-- Source `weekend_rollover`: Saturday rolls to Monday (+2 days),
Sunday rolls to Monday (+1 day), weekdays are unchanged. -/
def weekendRollover (d : Date) : Date :=
  if weekday d = 5 then addOneDay (addOneDay d)
  else if weekday d = 6 then addOneDay d
  else d

/-- Python `relativedelta(months=1)`: advance one month, clamping the day to
the target month's length. -/
def addMonths1 (d : Date) : Date :=
  if d.month < 12 then ⟨d.year, d.month + 1, min d.day (daysInMonth d.year (d.month + 1))⟩
  else ⟨d.year + 1, 1, min d.day (daysInMonth (d.year + 1) 1)⟩

/-- A well-formed calendar date. -/
def Valid (d : Date) : Prop :=
  1 ≤ d.year ∧ 1 ≤ d.month ∧ d.month ≤ 12 ∧ 1 ≤ d.day ∧ d.day ≤ daysInMonth d.year d.month

instance decValid (d : Date) : Decidable (Valid d) := by
  unfold Valid
  infer_instance

/-- A quarterly payment cycle: four (month, day) anchors.  The source stores
these as four `date` values with an irrelevant year; only month/day are read. -/
structure Cycle where
  m1 : Nat
  d1 : Nat
  m2 : Nat
  d2 : Nat
  m3 : Nat
  d3 : Nat
  m4 : Nat
  d4 : Nat
deriving DecidableEq

/-- Source `standard_cds_payment_dates`: Mar/Jun/Sep/Dec 20. -/
def standardCycle : Cycle := ⟨3, 20, 6, 20, 9, 20, 12, 20⟩

/-- Source `nonstandard_cds_payment_dates`: Feb/May/Aug/Nov 15. -/
def nonstandardCycle : Cycle := ⟨2, 15, 5, 15, 8, 15, 11, 15⟩

/-- Source `next_payment_date`, as a fuel-indexed recursion (the Python
function recurses on `current_date + relativedelta(months=1)`; `none` stands
for running out of fuel, which is proved not to happen for the two cycles). -/
def npdAux (c : Cycle) : Nat → Date → Option Date
  | 0, _ => none
  | fuel+1, d =>
      if d.month < c.m1 then some (weekendRollover ⟨d.year, c.m1, c.d1⟩)
      else if c.m1 < d.month ∧ d.month < c.m2 then some (weekendRollover ⟨d.year, c.m2, c.d2⟩)
      else if c.m2 < d.month ∧ d.month < c.m3 then some (weekendRollover ⟨d.year, c.m3, c.d3⟩)
      else if c.m3 < d.month ∧ d.month < c.m4 then some (weekendRollover ⟨d.year, c.m4, c.d4⟩)
      else if d.day < c.d1 then some (weekendRollover ⟨d.year, d.month, c.d1⟩)
      else (npdAux c fuel (addMonths1 d)).map weekendRollover

/-- Total wrapper for `next_payment_date` (fuel 13 is proved sufficient for
the two cycles of the source). -/
def nextPaymentDate (c : Cycle) (d : Date) : Date := (npdAux c 13 d).getD d

/-- Source `contract_date = date(2014, 2, 28)`. -/
def contractDate : Date := ⟨2014, 2, 28⟩

/-- Source `effective_date = contract_date + relativedelta(days=1)`. -/
def effectiveDate : Date := addOneDay contractDate

/-- Source `spread_maturity_dates_before_adjustment`. -/
def rawMaturityDates : List Date :=
  [⟨2014, 9, 20⟩, ⟨2015, 3, 20⟩, ⟨2016, 3, 20⟩, ⟨2017, 3, 20⟩, ⟨2018, 3, 20⟩,
   ⟨2019, 3, 20⟩, ⟨2021, 3, 20⟩, ⟨2024, 3, 20⟩, ⟨2034, 3, 20⟩, ⟨2044, 3, 20⟩]

/-- Source `spread_maturity_dates` (weekend-rolled pillar dates). -/
def spreadMaturityDates : List Date := rawMaturityDates.map weekendRollover

example : effectiveDate = ⟨2014, 3, 1⟩ := by decide

example : spreadMaturityDates =
    [⟨2014, 9, 22⟩, ⟨2015, 3, 20⟩, ⟨2016, 3, 21⟩, ⟨2017, 3, 20⟩, ⟨2018, 3, 20⟩,
     ⟨2019, 3, 20⟩, ⟨2021, 3, 22⟩, ⟨2024, 3, 20⟩, ⟨2034, 3, 20⟩, ⟨2044, 3, 21⟩] := by
  decide

/-- Ordinal of a date as an integer (for day differences, Python `(a-b).days`). -/
def ordZ (d : Date) : Int := (toOrdinal d : Int)

noncomputable section

/-- Python `int()` on a float: truncation toward zero. -/
def pyInt (x : ℝ) : Int := if 0 ≤ x then ⌊x⌋ else ⌈x⌉

/-- Nelson-Siegel default parameter `B0`. -/
def B0 : ℝ := 0.0408

/-- Nelson-Siegel default parameter `B1`. -/
def B1 : ℝ := -0.0396

/-- Nelson-Siegel default parameter `B2`. -/
def B2 : ℝ := -0.0511

/-- Nelson-Siegel default decay parameter `tau`. -/
def tau : ℝ := 1.614

/-- Source `r(s)`: the Nelson-Siegel zero rate (default parameters). -/
def r (s : ℝ) : ℝ :=
  if s = 0 then 0
  else B0 + B1 * (tau/s) * (1 - Real.exp (-s/tau))
    + B2 * ((tau/s) * (1 - Real.exp (-s/tau)) - Real.exp (-s/tau))

/-- Source `Z(s)`: discount factor `exp(-r(s) * s)`. -/
def Z (s : ℝ) : ℝ := Real.exp (-(r s) * s)

/-- Source `K(T_i, m=12)`: number of subintervals, `math.ceil(12 * T)`
(`Python range` of a non-positive count is empty, matching `Int.toNat`). -/
def K (T : ℝ) : Nat := (Int.ceil (12 * T)).toNat

/-- Source `s(k, T_i, m=12)`: the k-th monthly subdivision point `k*T/K(T)`. -/
def sPoint (k : Nat) (T : ℝ) : ℝ := (k : ℝ) * T / (K T : ℝ)

/-- The integrated-hazard scan of source `Q_h`: walk the pillar list with a
running interval start (the effective date, then the previous pillar); a
pillar strictly before the target end-date contributes its solved rate times
its Actual/360 length, the first pillar at or after the end-date contributes
the candidate rate `h` over the partial interval and stops the scan; if every
pillar is strictly before the end-date the scan just ends (no tail segment). -/
def hazAux (e : Int) (h : ℝ) (p : Date → ℝ) : Int → List Date → ℝ
  | _, [] => 0
  | start, m :: rest =>
      if ordZ m < e then p m * (((ordZ m - start : Int) : ℝ) / 360) + hazAux e h p (ordZ m) rest
      else h * (((e - start : Int) : ℝ) / 360)

/-- The target end-date of source `Q_h`:
`effective_date + relativedelta(days=int(t*360))`, as an ordinal. -/
def endOrdOf (t : ℝ) : Int := ordZ effectiveDate + pyInt (t * 360)

/-- Source `Q_h(t, h_i, prev_h)`: survival probability `exp(-h_t)` where
`h_t` is the integrated hazard of `hazAux`. -/
def Q_h (t : ℝ) (h : ℝ) (p : Date → ℝ) : ℝ :=
  Real.exp (-(hazAux (endOrdOf t) h p (ordZ effectiveDate) spreadMaturityDates))

/-- The `diff` computed by source `diff_Q_h`: scan the pillars with a running
start; the first pillar at or after the end-date yields the Actual/360
fraction from the preceding boundary to the end-date; if none, `diff = 0`. -/
def diffAux (e : Int) : Int → List Date → ℝ
  | _, [] => 0
  | start, m :: rest =>
      if e ≤ ordZ m then ((e - start : Int) : ℝ) / 360 else diffAux e (ordZ m) rest

/-- Source `diff_Q_h(t, h_i, prev_h) = -diff * Q_h(t, h_i, prev_h)`. -/
def diff_Q_h (t : ℝ) (h : ℝ) (p : Date → ℝ) : ℝ :=
  -(diffAux (endOrdOf t) (ordZ effectiveDate) spreadMaturityDates) * Q_h t h p

/-- Source `Q(dat)`: the public survival query over the calibrated map
(modelled as a total function `hv` on dates; the Python dict holds the
calibrated pillar rates).  Dates before the effective date return `0`;
otherwise the first pillar at or after `dat` supplies the candidate rate, and
past the last pillar the last pillar's value is used. -/
def Qquery (hv : Date → ℝ) (dat : Date) : ℝ :=
  if dat < effectiveDate then 0
  else
    ((spreadMaturityDates.find? (fun m => decide (dat ≤ m))).elim
      (Q_h (((ordZ dat - ordZ effectiveDate : Int) : ℝ) / 360)
        (hv (spreadMaturityDates.getLastD effectiveDate)) hv)
      (fun m => Q_h (((ordZ dat - ordZ effectiveDate : Int) : ℝ) / 360) (hv m) hv))

/-- Source `spread_data` values, in pillar order (quoted spreads in bps). -/
def spreads : List ℝ :=
  [103.07, 104.68, 106.74, 110.31, 113.38, 116.98, 128.78, 143.51, 159.43, 164.13]

/-- Default recovery rate of the standard CDS valuation (`R=0.45`). -/
def recoveryR : ℝ := 0.45

end

/-- The premium-leg schedule walk of `standard_cds_mtm_value`, as a
fuel-indexed recursion: starting from `cur`, repeatedly step to
`next_payment_date` while it is at or before `maturity`, collecting coupon
periods `(period_start, period_end)`; `none` stands for running out of fuel. -/
def periodsAux (c : Cycle) (mat : Date) : Nat → Date → Option (List (Date × Date))
  | 0, _ => none
  | fuel+1, cur =>
      let nxt := nextPaymentDate c cur
      if nxt ≤ mat then (periodsAux c mat fuel nxt).map (fun l => (cur, nxt) :: l)
      else some []

/-- Fuel that is proved sufficient for the premium-leg walk: one unit per day
between `cur` and `mat`, plus one (each loop step advances the date by at
least one day). -/
def periodsFuel (mat cur : Date) : Nat := toOrdinal mat + 1 - toOrdinal cur + 1

/-- The coupon periods visited by the premium-leg `while` loop. -/
def periods (c : Cycle) (mat cur : Date) : List (Date × Date) :=
  (periodsAux c mat (periodsFuel mat cur) cur).getD []

noncomputable section

/-- Actual/360 year fraction from the effective date to a date. -/
def yearFrac (d : Date) : ℝ := ((ordZ d - ordZ effectiveDate : Int) : ℝ) / 360

/-- Source `standard_cds_mtm_value(h_i, maturity_date, prev_h)` with the
default payment schedule and recovery rate: `a*b - c*d` where `b` is the
protection-leg trapezoidal sum over `K(T)` monthly subintervals, `d` is the
premium-leg sum over the coupon schedule, `a = (1-R)*100/2` and
`c = 0.5 * spread` for the pillar (`spread_data` looked up by the pillar's
index in `spread_maturity_dates`). -/
def standard_cds_mtm_value (h : ℝ) (mat : Date) (p : Date → ℝ) : ℝ :=
  let a : ℝ := (1 - recoveryR) * 100 / 2
  let T : ℝ := yearFrac mat
  let b : ℝ := ∑ k ∈ Finset.range (K T),
    (Z (sPoint k T) + Z (sPoint (k+1) T)) * (Q_h (sPoint k T) h p - Q_h (sPoint (k+1) T) h p)
  let c : ℝ := 0.5 * (spreads.getD (spreadMaturityDates.indexOf mat) 0)
  let d : ℝ := ((periods standardCycle mat effectiveDate).map (fun pr =>
    (((ordZ pr.2 - ordZ pr.1 : Int) : ℝ) / 360) * Z (yearFrac pr.2)
      * (Q_h (yearFrac pr.1) h p + Q_h (yearFrac pr.2) h p))).sum
  a * b - c * d

/-- Source `d_standard_cds_mtm_value(h_i, maturity_date, prev_h)`: the same
two-leg computation with every `Q_h` replaced by `diff_Q_h`. -/
def d_standard_cds_mtm_value (h : ℝ) (mat : Date) (p : Date → ℝ) : ℝ :=
  let a : ℝ := (1 - recoveryR) * 100 / 2
  let T : ℝ := yearFrac mat
  let b : ℝ := ∑ k ∈ Finset.range (K T),
    (Z (sPoint k T) + Z (sPoint (k+1) T))
      * (diff_Q_h (sPoint k T) h p - diff_Q_h (sPoint (k+1) T) h p)
  let c : ℝ := 0.5 * (spreads.getD (spreadMaturityDates.indexOf mat) 0)
  let d : ℝ := ((periods standardCycle mat effectiveDate).map (fun pr =>
    (((ordZ pr.2 - ordZ pr.1 : Int) : ℝ) / 360) * Z (yearFrac pr.2)
      * (diff_Q_h (yearFrac pr.1) h p + diff_Q_h (yearFrac pr.2) h p))).sum
  a * b - c * d

/-- The two-leg evaluator with the survival term abstracted: `mtmGen Q_h`
is the valuation and `mtmGen diff_Q_h` its hand-derived derivative (spec
section 4.4: "same structure, with every survival term replaced by
survival_derivative in both legs"). -/
def mtmGen (S : ℝ → ℝ → (Date → ℝ) → ℝ) (h : ℝ) (mat : Date) (p : Date → ℝ) : ℝ :=
  let a : ℝ := (1 - recoveryR) * 100 / 2
  let T : ℝ := yearFrac mat
  let b : ℝ := ∑ k ∈ Finset.range (K T),
    (Z (sPoint k T) + Z (sPoint (k+1) T)) * (S (sPoint k T) h p - S (sPoint (k+1) T) h p)
  let c : ℝ := 0.5 * (spreads.getD (spreadMaturityDates.indexOf mat) 0)
  let d : ℝ := ((periods standardCycle mat effectiveDate).map (fun pr =>
    (((ordZ pr.2 - ordZ pr.1 : Int) : ℝ) / 360) * Z (yearFrac pr.2)
      * (S (yearFrac pr.1) h p + S (yearFrac pr.2) h p))).sum
  a * b - c * d

/-- Spec protection leg: partition `[0, T]` into `K = ceil(12*T)` equal
subintervals and sum `(Z(s_k) + Z(s_{k+1})) * (Q(s_k) - Q(s_{k+1}))`, scaled
by `(1 - recovery_rate) * 50`. -/
def protectionLegSpec (h : ℝ) (mat : Date) (p : Date → ℝ) : ℝ :=
  (1 - recoveryR) * 50 * ∑ k ∈ Finset.range (K (yearFrac mat)),
    (Z (sPoint k (yearFrac mat)) + Z (sPoint (k+1) (yearFrac mat)))
      * (Q_h (sPoint k (yearFrac mat)) h p - Q_h (sPoint (k+1) (yearFrac mat)) h p)

/-- Spec premium leg: walk the payment schedule from the effective date to
the maturity pillar, accumulating `delta_t * Z(period_end) *
(Q(period_start) + Q(period_end))`, scaled by `0.5 * spread_bps`. -/
def premiumLegSpec (h : ℝ) (mat : Date) (p : Date → ℝ) : ℝ :=
  0.5 * (spreads.getD (spreadMaturityDates.indexOf mat) 0) *
    ((periods standardCycle mat effectiveDate).map (fun pr =>
      (((ordZ pr.2 - ordZ pr.1 : Int) : ℝ) / 360) * Z (yearFrac pr.2)
        * (Q_h (yearFrac pr.1) h p + Q_h (yearFrac pr.2) h p))).sum

/-- `np.sqrt(np.finfo(float).eps)`: the derivative floor of the root finder
(machine epsilon of IEEE doubles is `2^-52`). -/
def sqrtMachineEps : ℝ := Real.sqrt ((2 : ℝ) ^ (-52 : Int))

/-- The Newton iterates: `x_{k+1} = x_k - f(x_k) / df(x_k)`, with the
recursion unrolled at the front so that the iterates of the next seed are a
shift of the iterates of the current seed. -/
def newtonIter (f df : ℝ → ℝ) (x0 : ℝ) : Nat → ℝ
  | 0 => x0
  | k+1 => newtonIter f df (x0 - f x0 / df x0) k

/-- Source `newton_raphson_method(f, d_f, ...)` with the pillar arguments
already bound into `f` and `df`, as a fuel-indexed recursion (`none` stands
for not yet having terminated within the fuel; `some none` is the Python
`return None`, `some (some x)` the Python `return x`). -/
def newtonAux (f df : ℝ → ℝ) (eps : ℝ) : Nat → ℝ → Option (Option ℝ)
  | 0, _ => none
  | fuel+1, x =>
      if eps < |f x| then
        (if sqrtMachineEps < |df x| then newtonAux f df eps fuel (x - f x / df x)
         else some none)
      else some (some x)

/-- The iteration stalls at step `k`: every earlier step had residual above
tolerance and derivative above the floor (so its division was performed on a
safe derivative), and at step `k` the residual is still above tolerance while
the derivative magnitude is at or below the floor. -/
def newtonStalls (f df : ℝ → ℝ) (eps x0 : ℝ) (k : Nat) : Prop :=
  (∀ j < k, eps < |f (newtonIter f df x0 j)| ∧ sqrtMachineEps < |df (newtonIter f df x0 j)|)
    ∧ eps < |f (newtonIter f df x0 k)| ∧ |df (newtonIter f df x0 k)| ≤ sqrtMachineEps

/-- The iteration succeeds with value `x` after `m` steps: `x` is the `m`-th
iterate, its residual is within tolerance, and every earlier step had
residual above tolerance and derivative above the floor. -/
def newtonSucceeds (f df : ℝ → ℝ) (eps x0 x : ℝ) (m : Nat) : Prop :=
  x = newtonIter f df x0 m ∧ |f x| ≤ eps ∧
    ∀ j < m, eps < |f (newtonIter f df x0 j)| ∧ sqrtMachineEps < |df (newtonIter f df x0 j)|

end

/-- The calibration driver (source `h_values` loop): fold over the pillar
maturities in ascending order, and for each pillar unconditionally append the
entry `(pillar, root-finder result)` — including a `None` entry when the
root finder fails.  The root finder is abstracted as `rf`, receiving the
pillar and the map accumulated so far, exactly as
`newton_raphson_method(standard_cds_mtm_value, d_standard_cds_mtm_value,
mat_date, h_values)` does. -/
def calibrate {α : Type} (rf : Date → List (Date × Option α) → Option α) :
    List (Date × Option α) :=
  spreadMaturityDates.foldl (fun acc d => acc ++ [(d, rf d acc)]) []

noncomputable section

/-- Modelled from the spec's words for `survival_derivative`: the Actual/360
year fraction of the final interval, read off the consecutive boundary pairs
(preceding pillar or effective date, pillar): the first pillar at or after
the end date determines the interval; with no such pillar the value is 0. -/
def deltaSpec (e : Int) : ℝ :=
  ((List.zip (ordZ effectiveDate :: spreadMaturityDates.map ordZ)
      (spreadMaturityDates.map ordZ)).find? (fun pr => decide (e ≤ pr.2))).elim
    0 (fun pr => ((e - pr.1 : Int) : ℝ) / 360)

end

/-- Boolean check that a list of integers is upward-chained from `a`. -/
def chainLeB : Int → List Int → Bool
  | _, [] => true
  | a, b :: t => decide (a ≤ b) && chainLeB b t

/-- Modelled from the spec's words for `next_payment_date`: the five anchor
dates of the cycle that can follow `d` — this year's four anchors and the
first anchor of next year. -/
def anchorCandidates (c : Cycle) (d : Date) : List Date :=
  [⟨d.year, c.m1, c.d1⟩, ⟨d.year, c.m2, c.d2⟩, ⟨d.year, c.m3, c.d3⟩,
   ⟨d.year, c.m4, c.d4⟩, ⟨d.year + 1, c.m1, c.d1⟩]

/-- Modelled from the spec's words for `next_payment_date`: the earliest
anchor date strictly after `d` (the candidate list is chronological, so the
first candidate surviving the strictness filter is the earliest). -/
def nextAnchorSpec (c : Cycle) (d : Date) : Date :=
  ((anchorCandidates c d).filter (fun a => decide (d < a))).headD ⟨0, 0, 0⟩

/-! ### Theorems -/

/-- C10: for every date strictly before the contract's effective date, the
public survival query `Q` returns exactly `0` (a sentinel below the `(0,1]`
range), for any calibrated map. -/
theorem C10_Q_before_effective_eq_zero (hv : Date → ℝ) (dat : Date)
    (hlt : dat < effectiveDate) : Qquery hv dat = 0 := by
  unfold Qquery
  rw [if_pos hlt]

/-- Witness for C10 at the concrete date 2014-01-01. -/
theorem C10_witness :
    (⟨2014, 1, 1⟩ : Date) < effectiveDate ∧ Qquery (fun _ => 0) ⟨2014, 1, 1⟩ = 0 :=
  ⟨by decide, C10_Q_before_effective_eq_zero (fun _ => 0) ⟨2014, 1, 1⟩ (by decide)⟩

/-- Keys of the calibration map: one entry per pillar, in pillar order,
whatever the root finder returns. -/
lemma calibrate_keys {α : Type} (rf : Date → List (Date × Option α) → Option α) :
    (calibrate rf).map Prod.fst = spreadMaturityDates := by
  unfold calibrate
  suffices h : ∀ (l : List Date) (acc : List (Date × Option α)),
      (l.foldl (fun acc d => acc ++ [(d, rf d acc)]) acc).map Prod.fst =
        acc.map Prod.fst ++ l by
    simpa using h spreadMaturityDates []
  intro l
  induction l with
  | nil => intro acc; simp
  | cons d tl ih =>
      intro acc
      simp only [List.foldl_cons]
      rw [ih]
      simp

/-- C2 (the code evaluated at the failing input): when the root finder fails
at the first pillar, the driver still writes the entry `(pillar, none)` into
the map and goes on calibrating every later pillar — the map always gains one
entry per pillar, failed or not, instead of halting with no entry for the
failed pillar. -/
theorem C2_calibrate_writes_failed_entry :
    calibrate (fun d _ => if d = ⟨2014, 9, 22⟩ then (none : Option Nat) else some 0) =
      [(⟨2014, 9, 22⟩, none), (⟨2015, 3, 20⟩, some 0), (⟨2016, 3, 21⟩, some 0),
       (⟨2017, 3, 20⟩, some 0), (⟨2018, 3, 20⟩, some 0), (⟨2019, 3, 20⟩, some 0),
       (⟨2021, 3, 22⟩, some 0), (⟨2024, 3, 20⟩, some 0), (⟨2034, 3, 20⟩, some 0),
       (⟨2044, 3, 21⟩, some 0)] ∧
    ∀ (rf : Date → List (Date × Option Nat) → Option Nat),
      (calibrate rf).map Prod.fst = spreadMaturityDates :=
  ⟨by decide, fun rf => calibrate_keys rf⟩

/-- Unfolding the Newton iterates one step at the front. -/
lemma newtonIter_succ_front (f df : ℝ → ℝ) (x0 : ℝ) (k : Nat) :
    newtonIter f df x0 (k+1) = newtonIter f df (x0 - f x0 / df x0) k := rfl

/-- Characterization of the two terminating outcomes of `newtonAux`. -/
lemma newtonAux_char (f df : ℝ → ℝ) (eps : ℝ) :
    ∀ (n : Nat) (x0 : ℝ),
      (∀ x, newtonAux f df eps n x0 = some (some x) →
        ∃ m, m < n ∧ newtonSucceeds f df eps x0 x m)
      ∧ (newtonAux f df eps n x0 = some none →
        ∃ k, k < n ∧ newtonStalls f df eps x0 k) := by
  intro n
  induction n with
  | zero =>
      intro x0
      constructor
      · intro x h
        simp [newtonAux] at h
      · intro h
        simp [newtonAux] at h
  | succ n ih =>
      intro x0
      by_cases h1 : eps < |f x0|
      · by_cases h2 : sqrtMachineEps < |df x0|
        · have heq : newtonAux f df eps (n+1) x0 =
              newtonAux f df eps n (x0 - f x0 / df x0) := by
            simp [newtonAux, h1, h2]
          constructor
          · intro x hx
            rw [heq] at hx
            obtain ⟨m, hm, hx0, hfx, hsteps⟩ := (ih _).1 x hx
            refine ⟨m+1, by omega, ?_, hfx, ?_⟩
            · rw [newtonIter_succ_front]
              exact hx0
            · intro j hj
              cases j with
              | zero => exact ⟨h1, h2⟩
              | succ j' =>
                  rw [newtonIter_succ_front]
                  exact hsteps j' (by omega)
          · intro hx
            rw [heq] at hx
            obtain ⟨k, hk, hpre, hfk, hdk⟩ := (ih _).2 hx
            refine ⟨k+1, by omega, ?_, ?_, ?_⟩
            · intro j hj
              cases j with
              | zero => exact ⟨h1, h2⟩
              | succ j' =>
                  rw [newtonIter_succ_front]
                  exact hpre j' (by omega)
            · rw [newtonIter_succ_front]
              exact hfk
            · rw [newtonIter_succ_front]
              exact hdk
        · have heq : newtonAux f df eps (n+1) x0 = some none := by
            simp [newtonAux, h1, h2]
          constructor
          · intro x hx
            rw [heq] at hx
            simp at hx
          · intro _
            exact ⟨0, by omega, fun j hj => by omega, h1, not_lt.1 h2⟩
      · have heq : newtonAux f df eps (n+1) x0 = some (some x0) := by
          simp [newtonAux, h1]
        constructor
        · intro x hx
          rw [heq] at hx
          simp at hx
          subst hx
          refine ⟨0, by omega, rfl, not_lt.1 h1, ?_⟩
          intro j hj
          omega
        · intro hx
          rw [heq] at hx
          simp at hx

/-- If a stall occurs within the fuel bound, `newtonAux` returns `some none`. -/
lemma newtonAux_stall_complete (f df : ℝ → ℝ) (eps : ℝ) :
    ∀ (n : Nat) (x0 : ℝ) (k : Nat), k < n → newtonStalls f df eps x0 k →
      newtonAux f df eps n x0 = some none := by
  intro n
  induction n with
  | zero =>
      intro x0 k hk _
      omega
  | succ n ih =>
      intro x0 k hk hst
      obtain ⟨hpre, hfk, hdk⟩ := hst
      cases k with
      | zero =>
          have hfk' : eps < |f x0| := hfk
          have hdk' : |df x0| ≤ sqrtMachineEps := hdk
          simp [newtonAux, hfk', not_lt.2 hdk']
      | succ k' =>
          have h0 := hpre 0 (by omega)
          have h01 : eps < |f x0| := h0.1
          have h02 : sqrtMachineEps < |df x0| := h0.2
          have heq : newtonAux f df eps (n+1) x0 =
              newtonAux f df eps n (x0 - f x0 / df x0) := by
            simp [newtonAux, h01, h02]
          rw [heq]
          refine ih _ k' (by omega) ⟨?_, ?_, ?_⟩
          · intro j hj
            have := hpre (j+1) (by omega)
            rwa [newtonIter_succ_front] at this
          · rw [newtonIter_succ_front] at hfk
            exact hfk
          · rw [newtonIter_succ_front] at hdk
            exact hdk

/-- C4: the root finder returns a value `x` only when `|f x| ≤ eps` and every
Newton step on the way divided by a derivative strictly above the
`sqrt`-machine-epsilon floor, and it returns the no-solution signal exactly
when some iterate (reached through safe divisions) has residual above the
tolerance while its derivative magnitude is at or below the floor. -/
theorem C4_newton_raphson_spec (f df : ℝ → ℝ) (eps x0 : ℝ) (n : Nat) :
    (∀ x, newtonAux f df eps n x0 = some (some x) →
      ∃ m, m < n ∧ newtonSucceeds f df eps x0 x m)
    ∧ (newtonAux f df eps n x0 = some none ↔
      ∃ k, k < n ∧ newtonStalls f df eps x0 k) := by
  refine ⟨(newtonAux_char f df eps n x0).1, (newtonAux_char f df eps n x0).2, ?_⟩
  rintro ⟨k, hk, hst⟩
  exact newtonAux_stall_complete f df eps n x0 k hk hst

/-- Witness for C4: for `f x = x - 1`, `df = 1`, tolerance `1`, seed `0`,
the call returns `some 0` at once, and the theorem yields the success
characterization. -/
theorem C4_witness :
    ∃ m, m < 1 ∧ newtonSucceeds (fun x => x - 1) (fun _ => 1) 1 0 0 m :=
  (C4_newton_raphson_spec (fun x => x - 1) (fun _ => 1) 1 0 1).1 0 (by
    norm_num [newtonAux])

/-- Truncation of an integer-valued real is that integer. -/
lemma pyInt_intCast (n : Int) : pyInt ((n : Int) : ℝ) = n := by
  unfold pyInt
  split
  · exact Int.floor_intCast n
  · exact Int.ceil_intCast n

/-- The end-date ordinal recovered from an Actual/360 year fraction of a
whole number of days. -/
lemma endOrdOf_intCast_div (n : Int) :
    endOrdOf (((n : Int) : ℝ) / 360) = ordZ effectiveDate + n := by
  unfold endOrdOf
  rw [div_mul_cancel₀ _ (by norm_num : (360 : ℝ) ≠ 0), pyInt_intCast]

/-- The end-date ordinal of the year fraction of a date is that date's
ordinal. -/
lemma endOrdOf_ofDate (d : Date) :
    endOrdOf (((ordZ d - ordZ effectiveDate : Int) : ℝ) / 360) = ordZ d := by
  rw [endOrdOf_intCast_div]
  omega

/-- When every pillar lies strictly before both end-dates, the integrated
hazard scan never reaches the candidate-rate branch, so it is independent of
the end-date and of the candidate rate. -/
lemma hazAux_all_lt (e1 e2 : Int) (h1 h2 : ℝ) (p : Date → ℝ) :
    ∀ (l : List Date) (start : Int), (∀ m ∈ l, ordZ m < e1) → (∀ m ∈ l, ordZ m < e2) →
      hazAux e1 h1 p start l = hazAux e2 h2 p start l := by
  intro l
  induction l with
  | nil => intro start _ _; rfl
  | cons m rest ih =>
      intro start hb1 hb2
      have hm1 : ordZ m < e1 := hb1 m (List.mem_cons_self m rest)
      have hm2 : ordZ m < e2 := hb2 m (List.mem_cons_self m rest)
      unfold hazAux
      rw [if_pos hm1, if_pos hm2,
        ih (ordZ m) (fun x hx => hb1 x (List.mem_cons_of_mem m hx))
          (fun x hx => hb2 x (List.mem_cons_of_mem m hx))]

/-- C3 (the code evaluated at the failing input): the survival query at two
distinct dates strictly beyond the last pillar (2044-03-21) returns the same
value for every calibrated map — the scan in `Q_h` never integrates the
segment from the last pillar to the query date, so survival is constant
beyond the horizon instead of decaying at the last calibrated rate. -/
theorem C3_Q_constant_beyond_last_pillar (hv : Date → ℝ) :
    Qquery hv ⟨2045, 1, 1⟩ = Qquery hv ⟨2050, 1, 1⟩ := by
  have hf1 : spreadMaturityDates.find? (fun m => decide ((⟨2045, 1, 1⟩ : Date) ≤ m)) = none := by
    decide
  have hf2 : spreadMaturityDates.find? (fun m => decide ((⟨2050, 1, 1⟩ : Date) ≤ m)) = none := by
    decide
  unfold Qquery
  rw [if_neg (by decide), if_neg (by decide), hf1, hf2]
  simp only [Option.elim_none]
  unfold Q_h
  rw [endOrdOf_ofDate, endOrdOf_ofDate]
  rw [hazAux_all_lt (ordZ ⟨2045, 1, 1⟩) (ordZ ⟨2050, 1, 1⟩)
    (hv (spreadMaturityDates.getLastD effectiveDate))
    (hv (spreadMaturityDates.getLastD effectiveDate)) hv
    spreadMaturityDates (ordZ effectiveDate) (by decide) (by decide)]

/-- The `diff` scan of `diff_Q_h` equals the first boundary pair
`(preceding boundary, pillar)` whose pillar is at or after the end-date. -/
lemma diffAux_zip (e : Int) :
    ∀ (l : List Date) (start : Int),
      diffAux e start l =
        ((List.zip (start :: l.map ordZ) (l.map ordZ)).find?
            (fun pr => decide (e ≤ pr.2))).elim 0
          (fun pr => ((e - pr.1 : Int) : ℝ) / 360) := by
  intro l
  induction l with
  | nil => intro start; rfl
  | cons m rest ih =>
      intro start
      by_cases hm : e ≤ ordZ m
      · unfold diffAux
        rw [if_pos hm]
        simp only [List.map_cons, List.zip_cons_cons]
        rw [List.find?_cons_of_pos _ (by simpa using hm)]
        rfl
      · unfold diffAux
        rw [if_neg hm]
        simp only [List.map_cons, List.zip_cons_cons]
        rw [List.find?_cons_of_neg _ (by simpa using hm)]
        exact ih (ordZ m)

/-- `deltaSpec` computes exactly the `diff` of the source `diff_Q_h`. -/
lemma deltaSpec_eq_diffAux (e : Int) :
    deltaSpec e = diffAux e (ordZ effectiveDate) spreadMaturityDates := by
  rw [diffAux_zip]
  rfl

/-- The integrated hazard is an affine function of the candidate rate, with
slope the `diff` of `diff_Q_h`. -/
lemma hazAux_linear (e : Int) (h : ℝ) (p : Date → ℝ) :
    ∀ (l : List Date) (start : Int),
      hazAux e h p start l = hazAux e 0 p start l + diffAux e start l * h := by
  intro l
  induction l with
  | nil =>
      intro start
      show (0 : ℝ) = 0 + 0 * h
      ring
  | cons m rest ih =>
      intro start
      by_cases hm : ordZ m < e
      · unfold hazAux diffAux
        rw [if_pos hm, if_pos hm, if_neg (not_le.2 hm), ih (ordZ m)]
        ring
      · unfold hazAux diffAux
        rw [if_neg hm, if_neg hm, if_pos (not_lt.1 hm)]
        ring

/-- `Q_h` as an explicit exponential-affine function of the candidate rate. -/
lemma Q_h_eq_exp_affine (t x : ℝ) (p : Date → ℝ) :
    Q_h t x p = Real.exp (-(hazAux (endOrdOf t) 0 p (ordZ effectiveDate) spreadMaturityDates
      + diffAux (endOrdOf t) (ordZ effectiveDate) spreadMaturityDates * x)) := by
  unfold Q_h
  rw [hazAux_linear]

/-- `diff_Q_h` is the derivative of `Q_h` in the candidate rate. -/
lemma Q_h_hasDerivAt (t h : ℝ) (p : Date → ℝ) :
    HasDerivAt (fun x => Q_h t x p) (diff_Q_h t h p) h := by
  have hfun : (fun x => Q_h t x p) = fun x =>
      Real.exp (-(hazAux (endOrdOf t) 0 p (ordZ effectiveDate) spreadMaturityDates
        + diffAux (endOrdOf t) (ordZ effectiveDate) spreadMaturityDates * x)) :=
    funext fun x => Q_h_eq_exp_affine t x p
  rw [hfun]
  set B := hazAux (endOrdOf t) 0 p (ordZ effectiveDate) spreadMaturityDates with hB
  set W := diffAux (endOrdOf t) (ordZ effectiveDate) spreadMaturityDates with hW
  have hinner : HasDerivAt (fun x : ℝ => -(B + W * x)) (-(W * 1)) h :=
    (((hasDerivAt_id h).const_mul W).const_add B).neg
  have hexp := hinner.exp
  have hval : Real.exp (-(B + W * h)) * -(W * 1) = diff_Q_h t h p := by
    unfold diff_Q_h
    rw [Q_h_eq_exp_affine]
    ring
  rw [hval] at hexp
  exact hexp

/-- C5 counterexample: with every pillar solved at rate 1 and the target
end-date 100 days after the effective date — entirely within solved history,
before the first pillar — the derivative `diff_Q_h` is strictly negative,
not zero as the claim's "zero within already-solved history" clause states
(the scan always charges the candidate rate to the covering interval). -/
theorem C5_counterexample : diff_Q_h (100 / 360) 1 (fun _ => 1) < 0 := by
  unfold diff_Q_h
  have he : endOrdOf (100 / 360) = ordZ effectiveDate + 100 := by
    have : ((100 : ℝ) / 360) = (((100 : Int) : ℝ) / 360) := by norm_num
    rw [this, endOrdOf_intCast_div]
  rw [he]
  have hd : diffAux (ordZ effectiveDate + 100) (ordZ effectiveDate) spreadMaturityDates
      = ((100 : Int) : ℝ) / 360 := by
    have hsmd : spreadMaturityDates = ⟨2014, 9, 22⟩ ::
        [⟨2015, 3, 20⟩, ⟨2016, 3, 21⟩, ⟨2017, 3, 20⟩, ⟨2018, 3, 20⟩,
         ⟨2019, 3, 20⟩, ⟨2021, 3, 22⟩, ⟨2024, 3, 20⟩, ⟨2034, 3, 20⟩, ⟨2044, 3, 21⟩] := by
      decide
    rw [hsmd]
    unfold diffAux
    rw [if_pos (by decide)]
    norm_num
  rw [hd]
  apply mul_neg_of_neg_of_pos
  · norm_num
  · exact Real.exp_pos _

/-- C5 amended: `diff_Q_h(t, h, prev)` equals `-Δ · Q_h(t, h, prev)` where
`Δ` is the Actual/360 year fraction of the final interval (from the
preceding pillar, or the effective date for the first pillar, to the target
end-date; `Δ = 0` exactly when the end-date lies strictly beyond every
pillar — not when it lies within already-solved history), and this is the
exact partial derivative of `Q_h` with respect to the candidate rate. -/
theorem C5_diff_Q_h_spec (t h : ℝ) (p : Date → ℝ) :
    diff_Q_h t h p = -(deltaSpec (endOrdOf t)) * Q_h t h p
    ∧ HasDerivAt (fun x => Q_h t x p) (diff_Q_h t h p) h := by
  constructor
  · rw [deltaSpec_eq_diffAux]
    rfl
  · exact Q_h_hasDerivAt t h p

/-- Derivative of a sum over a list of parameterized terms. -/
lemma hasDerivAt_list_sum {α : Type} (l : List α) (F : α → ℝ → ℝ) (G : α → ℝ) (x : ℝ)
    (hF : ∀ a ∈ l, HasDerivAt (F a) (G a) x) :
    HasDerivAt (fun y => (l.map (fun a => F a y)).sum) ((l.map G).sum) x := by
  induction l with
  | nil =>
      simp only [List.map_nil, List.sum_nil]
      exact hasDerivAt_const x 0
  | cons a tl ih =>
      simp only [List.map_cons, List.sum_cons]
      exact (hF a (List.mem_cons_self a tl)).add
        (ih (fun b hb => hF b (List.mem_cons_of_mem a hb)))

/-- C6: `d_standard_cds_mtm_value` has exactly the structure of
`standard_cds_mtm_value` with every `Q_h` replaced by `diff_Q_h` in both legs
(identical discount factors, schedule and day counts, witnessed by the shared
two-leg evaluator `mtmGen`), and it is the exact derivative of the valuation
with respect to the candidate hazard rate. -/
theorem C6_d_mtm_structure_and_derivative (h : ℝ) (mat : Date) (p : Date → ℝ) :
    standard_cds_mtm_value h mat p = mtmGen Q_h h mat p
    ∧ d_standard_cds_mtm_value h mat p = mtmGen diff_Q_h h mat p
    ∧ HasDerivAt (fun x => standard_cds_mtm_value x mat p)
        (d_standard_cds_mtm_value h mat p) h := by
  refine ⟨rfl, rfl, ?_⟩
  show HasDerivAt (fun x => mtmGen Q_h x mat p) (mtmGen diff_Q_h h mat p) h
  simp only [mtmGen]
  apply HasDerivAt.sub
  · apply HasDerivAt.const_mul
    apply HasDerivAt.sum
    intro k _
    exact ((Q_h_hasDerivAt (sPoint k (yearFrac mat)) h p).sub
      (Q_h_hasDerivAt (sPoint (k+1) (yearFrac mat)) h p)).const_mul _
  · apply HasDerivAt.const_mul
    exact hasDerivAt_list_sum (periods standardCycle mat effectiveDate)
      (fun pr y => (((ordZ pr.2 - ordZ pr.1 : Int) : ℝ) / 360) * Z (yearFrac pr.2)
        * (Q_h (yearFrac pr.1) y p + Q_h (yearFrac pr.2) y p))
      (fun pr => (((ordZ pr.2 - ordZ pr.1 : Int) : ℝ) / 360) * Z (yearFrac pr.2)
        * (diff_Q_h (yearFrac pr.1) h p + diff_Q_h (yearFrac pr.2) h p))
      h
      (fun pr _ => ((Q_h_hasDerivAt (yearFrac pr.1) h p).add
        (Q_h_hasDerivAt (yearFrac pr.2) h p)).const_mul _)

/-- C1: for every pillar maturity, the standard CDS mark-to-market value is
the protection-leg sum minus the premium-leg sum: the protection leg
partitions `[0, T]` into `K = ceil(12*T)` equal subintervals (the partition
has at least one subinterval and constant mesh `T / K`), summing
`(Z(s_k) + Z(s_{k+1})) * (Q(s_k) - Q(s_{k+1}))` scaled by
`(1 - recovery_rate) * 50`, and the premium leg walks the payment schedule
accumulating `delta_t * Z(period_end) * (Q(period_start) + Q(period_end))`
scaled by `0.5 * spread_bps` of the pillar. -/
theorem C1_mtm_is_protection_minus_premium (h : ℝ) (p : Date → ℝ) (mat : Date)
    (hmem : mat ∈ spreadMaturityDates) :
    standard_cds_mtm_value h mat p = protectionLegSpec h mat p - premiumLegSpec h mat p
    ∧ 0 < K (yearFrac mat)
    ∧ ∀ k : Nat, sPoint (k+1) (yearFrac mat) - sPoint k (yearFrac mat)
        = yearFrac mat / (K (yearFrac mat) : ℝ) := by
  have hordlt : ordZ effectiveDate < ordZ mat :=
    (by decide : ∀ m ∈ spreadMaturityDates, ordZ effectiveDate < ordZ m) mat hmem
  have hT : 0 < yearFrac mat := by
    unfold yearFrac
    apply div_pos _ (by norm_num)
    exact_mod_cast sub_pos.2 hordlt
  have hK : 0 < K (yearFrac mat) := by
    unfold K
    have hceil : (0 : Int) < Int.ceil (12 * yearFrac mat) :=
      Int.ceil_pos.2 (by positivity)
    omega
  refine ⟨?_, hK, ?_⟩
  · simp only [standard_cds_mtm_value, protectionLegSpec, premiumLegSpec]
    ring
  · intro k
    have hKne : ((K (yearFrac mat) : ℝ)) ≠ 0 := by
      have hne : K (yearFrac mat) ≠ 0 := by omega
      exact_mod_cast hne
    unfold sPoint
    push_cast
    field_simp
    ring

/-- Witness for C1 at the first pillar (2014-09-22), candidate rate 1,
empty solved history. -/
theorem C1_witness :
    (⟨2014, 9, 22⟩ : Date) ∈ spreadMaturityDates
    ∧ (standard_cds_mtm_value 1 ⟨2014, 9, 22⟩ (fun _ => 0)
        = protectionLegSpec 1 ⟨2014, 9, 22⟩ (fun _ => 0)
          - premiumLegSpec 1 ⟨2014, 9, 22⟩ (fun _ => 0)
      ∧ 0 < K (yearFrac ⟨2014, 9, 22⟩)
      ∧ ∀ k : Nat, sPoint (k+1) (yearFrac ⟨2014, 9, 22⟩) - sPoint k (yearFrac ⟨2014, 9, 22⟩)
          = yearFrac ⟨2014, 9, 22⟩ / (K (yearFrac ⟨2014, 9, 22⟩) : ℝ)) :=
  ⟨by decide, C1_mtm_is_protection_minus_premium 1 (fun _ => 0) ⟨2014, 9, 22⟩ (by decide)⟩

/-- The integrated hazard is non-negative when the candidate rate and all
solved rates are non-negative, the scan starts at or before the end-date and
the pillar ordinals increase along the scan. -/
lemma hazAux_nonneg (e : Int) (h : ℝ) (p : Date → ℝ) :
    ∀ (l : List Date) (start : Int), 0 ≤ h → (∀ m ∈ l, 0 ≤ p m) → start ≤ e →
      chainLeB start (l.map ordZ) = true → 0 ≤ hazAux e h p start l := by
  intro l
  induction l with
  | nil =>
      intro start _ _ _ _
      exact le_refl 0
  | cons m rest ih =>
      intro start hh hp hse hch
      simp only [List.map_cons, chainLeB, Bool.and_eq_true, decide_eq_true_eq] at hch
      obtain ⟨hsm, hch'⟩ := hch
      unfold hazAux
      by_cases hm : ordZ m < e
      · rw [if_pos hm]
        have h1 : 0 ≤ p m * (((ordZ m - start : Int) : ℝ) / 360) := by
          apply mul_nonneg (hp m (List.mem_cons_self m rest))
          apply div_nonneg _ (by norm_num)
          exact_mod_cast sub_nonneg.2 hsm
        have h2 : 0 ≤ hazAux e h p (ordZ m) rest :=
          ih (ordZ m) hh (fun x hx => hp x (List.mem_cons_of_mem m hx)) hm.le hch'
        linarith
      · rw [if_neg hm]
        apply mul_nonneg hh
        apply div_nonneg _ (by norm_num)
        exact_mod_cast sub_nonneg.2 hse

/-- The integrated hazard is monotone in the end-date provided every solved
rate dominates the candidate rate. -/
lemma hazAux_mono (e1 e2 : Int) (h : ℝ) (p : Date → ℝ) :
    ∀ (l : List Date) (start : Int), 0 ≤ h → (∀ m ∈ l, h ≤ p m) →
      start ≤ e1 → e1 ≤ e2 → chainLeB start (l.map ordZ) = true →
      hazAux e1 h p start l ≤ hazAux e2 h p start l := by
  intro l
  induction l with
  | nil =>
      intro start _ _ _ _ _
      exact le_refl 0
  | cons m rest ih =>
      intro start hh hp hse1 h12 hch
      simp only [List.map_cons, chainLeB, Bool.and_eq_true, decide_eq_true_eq] at hch
      obtain ⟨hsm, hch'⟩ := hch
      have hpm : h ≤ p m := hp m (List.mem_cons_self m rest)
      unfold hazAux
      by_cases hm1 : ordZ m < e1
      · rw [if_pos hm1, if_pos (lt_of_lt_of_le hm1 h12)]
        have := ih (ordZ m) hh (fun x hx => hp x (List.mem_cons_of_mem m hx))
          hm1.le h12 hch'
        linarith
      · rw [if_neg hm1]
        by_cases hm2 : ordZ m < e2
        · rw [if_pos hm2]
          have hstep1 : h * (((e1 - start : Int) : ℝ) / 360)
              ≤ p m * (((ordZ m - start : Int) : ℝ) / 360) := by
            have hfrac : ((e1 - start : Int) : ℝ) / 360 ≤ ((ordZ m - start : Int) : ℝ) / 360 := by
              apply div_le_div_of_nonneg_right ?_ (by norm_num)
              · exact_mod_cast sub_le_sub_right (not_lt.1 hm1) start
            calc h * (((e1 - start : Int) : ℝ) / 360)
                ≤ h * (((ordZ m - start : Int) : ℝ) / 360) := by
                  apply mul_le_mul_of_nonneg_left hfrac hh
              _ ≤ p m * (((ordZ m - start : Int) : ℝ) / 360) := by
                  apply mul_le_mul_of_nonneg_right hpm
                  apply div_nonneg _ (by norm_num)
                  have : start ≤ ordZ m := hsm
                  exact_mod_cast sub_nonneg.2 this
          have hrest : 0 ≤ hazAux e2 h p (ordZ m) rest := by
            apply hazAux_nonneg e2 h p rest (ordZ m) hh
              (fun x hx => le_trans hh (hp x (List.mem_cons_of_mem m hx)))
              hm2.le hch'
          linarith
        · rw [if_neg hm2]
          apply mul_le_mul_of_nonneg_left _ hh
          apply div_le_div_of_nonneg_right _ (by norm_num)
          exact_mod_cast sub_le_sub_right h12 start

/-- `pyInt` of a non-negative real is non-negative. -/
lemma pyInt_nonneg {x : ℝ} (hx : 0 ≤ x) : 0 ≤ pyInt x := by
  unfold pyInt
  rw [if_pos hx]
  exact Int.floor_nonneg.2 hx

/-- `pyInt` is monotone on non-negative reals. -/
lemma pyInt_mono {x y : ℝ} (hx : 0 ≤ x) (hxy : x ≤ y) : pyInt x ≤ pyInt y := by
  unfold pyInt
  rw [if_pos hx, if_pos (le_trans hx hxy)]
  exact Int.floor_le_floor hxy

/-- C7 counterexample: with candidate rate 1 and every solved rate 0 (all
finite and non-negative), the survival `Q_h` strictly increases from
`t1 = 205/360` (the first pillar) to `t2 = 206/360` (one day past it):
crossing the pillar boundary re-prices the first interval at the solved rate
0 instead of the candidate rate 1, so `Q_h` is not non-increasing in `t`. -/
theorem C7_counterexample :
    Q_h (205 / 360) 1 (fun _ => 0) < Q_h (206 / 360) 1 (fun _ => 0) := by
  have hsmd : spreadMaturityDates = ⟨2014, 9, 22⟩ ::
      [⟨2015, 3, 20⟩, ⟨2016, 3, 21⟩, ⟨2017, 3, 20⟩, ⟨2018, 3, 20⟩,
       ⟨2019, 3, 20⟩, ⟨2021, 3, 22⟩, ⟨2024, 3, 20⟩, ⟨2034, 3, 20⟩, ⟨2044, 3, 21⟩] := by
    decide
  have he1 : endOrdOf (205 / 360) = ordZ effectiveDate + 205 := by
    have : ((205 : ℝ) / 360) = (((205 : Int) : ℝ) / 360) := by norm_num
    rw [this, endOrdOf_intCast_div]
  have he2 : endOrdOf (206 / 360) = ordZ effectiveDate + 206 := by
    have : ((206 : ℝ) / 360) = (((206 : Int) : ℝ) / 360) := by norm_num
    rw [this, endOrdOf_intCast_div]
  unfold Q_h
  rw [he1, he2, hsmd]
  unfold hazAux
  rw [if_neg (by decide), if_pos (by decide)]
  unfold hazAux
  rw [if_neg (by decide)]
  have hv1 : (ordZ effectiveDate + 205 - ordZ effectiveDate : Int) = 205 := by omega
  have hv2 : (ordZ effectiveDate + 206 - ordZ (⟨2014, 9, 22⟩ : Date) : Int) = 1 := by decide
  rw [hv1, hv2]
  rw [Real.exp_lt_exp]
  norm_num

/-- C7 amended: for every `0 ≤ t1 ≤ t2`, non-negative candidate rate and
non-negative solved rates, `Q_h` lies in `(0, 1]`; and `Q_h` is
non-increasing from `t1` to `t2` under the additional hypothesis (forced by
the counterexample) that every solved rate dominates the candidate rate. -/
theorem C7_Q_h_range_and_monotone (t1 t2 h : ℝ) (p : Date → ℝ)
    (ht1 : 0 ≤ t1) (ht12 : t1 ≤ t2) (hh : 0 ≤ h) (hp : ∀ m, 0 ≤ p m) :
    (0 < Q_h t1 h p ∧ Q_h t1 h p ≤ 1)
    ∧ ((∀ m, h ≤ p m) → Q_h t2 h p ≤ Q_h t1 h p) := by
  have hchain : chainLeB (ordZ effectiveDate) (spreadMaturityDates.map ordZ) = true := by
    decide
  have he1 : ordZ effectiveDate ≤ endOrdOf t1 := by
    unfold endOrdOf
    have : 0 ≤ pyInt (t1 * 360) := pyInt_nonneg (by positivity)
    omega
  have he12 : endOrdOf t1 ≤ endOrdOf t2 := by
    unfold endOrdOf
    have : pyInt (t1 * 360) ≤ pyInt (t2 * 360) :=
      pyInt_mono (by positivity) (by nlinarith)
    omega
  refine ⟨⟨?_, ?_⟩, ?_⟩
  · unfold Q_h
    exact Real.exp_pos _
  · unfold Q_h
    rw [Real.exp_le_one_iff]
    have := hazAux_nonneg (endOrdOf t1) h p spreadMaturityDates (ordZ effectiveDate)
      hh (fun m _ => hp m) he1 hchain
    linarith
  · intro hdom
    unfold Q_h
    rw [Real.exp_le_exp]
    have := hazAux_mono (endOrdOf t1) (endOrdOf t2) h p spreadMaturityDates
      (ordZ effectiveDate) hh (fun m _ => hdom m) he1 he12 hchain
    linarith

/-- Witness for C7 at `t1 = 0`, `t2 = 1`, candidate rate 0, solved rates 0. -/
theorem C7_witness :
    (0 < Q_h 0 0 (fun _ => 0) ∧ Q_h 0 0 (fun _ => 0) ≤ 1)
    ∧ Q_h 1 0 (fun _ => 0) ≤ Q_h 0 0 (fun _ => 0) := by
  have h := C7_Q_h_range_and_monotone 0 1 0 (fun _ => 0)
    (by norm_num) (by norm_num) (by norm_num) (fun m => by norm_num)
  exact ⟨h.1, h.2 (fun m => by norm_num)⟩

/-! ### Calendar lemmas for the payment-date claims -/

/-- Unfold the strict date order to field comparisons. -/
lemma Date.lt_iff (a b : Date) : a < b ↔
    (a.year < b.year ∨ (a.year = b.year ∧
      (a.month < b.month ∨ (a.month = b.month ∧ a.day < b.day)))) := Iff.rfl

/-- Unfold the date order to field comparisons. -/
lemma Date.le_iff (a b : Date) : a ≤ b ↔
    (a.year < b.year ∨ (a.year = b.year ∧
      (a.month < b.month ∨ (a.month = b.month ∧ a.day ≤ b.day)))) := by
  obtain ⟨ay, am, ad⟩ := a
  obtain ⟨by', bm, bd⟩ := b
  show Date.lt _ _ ∨ Date.mk ay am ad = Date.mk by' bm bd ↔ _
  simp only [Date.lt, Date.mk.injEq]
  omega

/-- Strict order is transitive across a non-strict step. -/
lemma Date.lt_of_lt_of_le {a b c : Date} (h1 : a < b) (h2 : b ≤ c) : a < c := by
  rw [Date.lt_iff] at h1 ⊢
  rw [Date.le_iff] at h2
  omega

/-- Months 1..12 are non-empty. -/
lemma daysInMonth_pos (y m : Nat) : 1 ≤ daysInMonth y m := by
  unfold daysInMonth
  split
  · split <;> norm_num
  · split <;> norm_num

/-- The cumulative-days table steps by the month length. -/
lemma daysBeforeMonth_succ (y m : Nat) (h1 : 1 ≤ m) (h2 : m ≤ 11) :
    daysBeforeMonth y (m+1) = daysBeforeMonth y m + daysInMonth y m := by
  by_cases hl : isLeap y = true <;>
    interval_cases m <;>
      simp [daysBeforeMonth, daysBeforeMonthCommon, daysInMonth, hl]

/-- The leap-year count steps by the indicator of `y` being leap. -/
lemma leapsBefore_succ (y : Nat) (hy : 1 ≤ y) :
    leapsBefore (y+1) = leapsBefore y + (if isLeap y then 1 else 0) := by
  obtain ⟨z, rfl⟩ : ∃ z, y = z + 1 := ⟨y - 1, by omega⟩
  unfold leapsBefore
  simp only [Nat.add_sub_cancel]
  rw [Nat.succ_div, Nat.succ_div, Nat.succ_div]
  simp only [isLeap, Bool.and_eq_true, Bool.or_eq_true, beq_iff_eq, bne_iff_ne, ne_eq]
  split <;> split <;> split <;> split <;> omega

/-- Within a year, position is bounded by the year length. -/
lemma daysBeforeMonth_day_le (y m day : Nat) (h1 : 1 ≤ m) (h2 : m ≤ 12)
    (hd : day ≤ daysInMonth y m) :
    daysBeforeMonth y m + day ≤ 365 + (if isLeap y then 1 else 0) := by
  by_cases hl : isLeap y = true <;>
    interval_cases m <;>
      simp only [daysBeforeMonth, daysBeforeMonthCommon, daysInMonth, hl] at hd ⊢ <;>
      norm_num at hd ⊢ <;> omega

/-- The leap-year count never decreases. -/
lemma leapsBefore_le_succ (w : Nat) : leapsBefore w ≤ leapsBefore (w+1) := by
  rcases Nat.eq_zero_or_pos w with rfl | hw
  · decide
  · rw [leapsBefore_succ w hw]
    split <;> omega

/-- The leap-year count is monotone. -/
lemma leapsBefore_mono (z : Nat) : ∀ w, z ≤ w → leapsBefore z ≤ leapsBefore w := by
  intro w
  induction w with
  | zero =>
      intro h
      have hz : z = 0 := by omega
      rw [hz]
  | succ w ih =>
      intro h
      rcases Nat.lt_or_ge z (w+1) with h1 | h2
      · exact le_trans (ih (by omega)) (leapsBefore_le_succ w)
      · have hz : z = w + 1 := by omega
        rw [hz]

/-- Start-of-next-year identity for the ordinal year offset. -/
lemma yearOrd_step (y : Nat) (hy : 1 ≤ y) :
    365 * (y - 1) + leapsBefore y + 365 + (if isLeap y then 1 else 0)
      = 365 * y + leapsBefore (y + 1) := by
  rw [leapsBefore_succ y hy]
  split <;> omega

/-- The year offset of a strictly later year dominates the end of this year. -/
lemma yearOrd_mono (z : Nat) (hz : 1 ≤ z) : ∀ w, z < w →
    365 * z + leapsBefore (z + 1) ≤ 365 * (w - 1) + leapsBefore w := by
  intro w
  induction w with
  | zero =>
      intro h
      omega
  | succ w ih =>
      intro h
      rcases Nat.lt_or_ge z w with h1 | h2
      · have hstep := leapsBefore_le_succ w
        have := ih h1
        omega
      · have hzw : z = w := by omega
        subst hzw
        omega

/-- Stepping past month `m` stays below any later month's cumulative count. -/
lemma daysBeforeMonth_add_le (y m : Nat) (h1 : 1 ≤ m) : ∀ m', m < m' → m' ≤ 12 →
    daysBeforeMonth y m + daysInMonth y m ≤ daysBeforeMonth y m' := by
  intro m'
  induction m' with
  | zero =>
      intro h _
      omega
  | succ m' ih =>
      intro hlt hle
      rcases Nat.lt_or_ge m m' with h1' | h2'
      · have hrec := ih h1' (by omega)
        have hstep : daysBeforeMonth y (m'+1)
            = daysBeforeMonth y m' + daysInMonth y m' :=
          daysBeforeMonth_succ y m' (by omega) (by omega)
        have := daysInMonth_pos y m'
        omega
      · have hmm : m = m' := by omega
        subst hmm
        rw [daysBeforeMonth_succ y m h1 (by omega)]

/-- `toOrdinal` is strictly monotone on valid dates. -/
lemma toOrdinal_lt_of_lt {a b : Date} (ha : Valid a) (hb : Valid b) (hab : a < b) :
    toOrdinal a < toOrdinal b := by
  obtain ⟨hay, ham1, ham2, had1, had2⟩ := ha
  obtain ⟨hby, hbm1, hbm2, hbd1, hbd2⟩ := hb
  rw [Date.lt_iff] at hab
  unfold toOrdinal
  rcases hab with hy | ⟨hy, hrest⟩
  · have hposA : daysBeforeMonth a.year a.month + a.day
        ≤ 365 + (if isLeap a.year then 1 else 0) :=
      daysBeforeMonth_day_le a.year a.month a.day ham1 ham2 had2
    have h1 := yearOrd_step a.year hay
    have h2 := yearOrd_mono a.year hay b.year hy
    omega
  · rcases hrest with hm | ⟨hm, hd⟩
    · have hbound := daysBeforeMonth_add_le a.year a.month ham1 b.month hm hbm2
      rw [← hy]
      omega
    · rw [← hy, ← hm]
      omega

/-- Adding one day adds one to the ordinal. -/
lemma toOrdinal_addOneDay {d : Date} (hd : Valid d) :
    toOrdinal (addOneDay d) = toOrdinal d + 1 := by
  obtain ⟨hy, hm1, hm2, hd1, hd2⟩ := hd
  unfold addOneDay
  by_cases h1 : d.day < daysInMonth d.year d.month
  · rw [if_pos h1]
    show 365 * (d.year - 1) + leapsBefore d.year + daysBeforeMonth d.year d.month + (d.day + 1)
        = 365 * (d.year - 1) + leapsBefore d.year + daysBeforeMonth d.year d.month + d.day + 1
    omega
  · rw [if_neg h1]
    have hday : d.day = daysInMonth d.year d.month := by omega
    by_cases h2 : d.month < 12
    · rw [if_pos h2]
      show 365 * (d.year - 1) + leapsBefore d.year + daysBeforeMonth d.year (d.month + 1) + 1
          = 365 * (d.year - 1) + leapsBefore d.year + daysBeforeMonth d.year d.month + d.day + 1
      rw [daysBeforeMonth_succ d.year d.month hm1 (by omega)]
      omega
    · rw [if_neg h2]
      have hm : d.month = 12 := by omega
      show 365 * (d.year + 1 - 1) + leapsBefore (d.year + 1) + daysBeforeMonth (d.year + 1) 1 + 1
          = 365 * (d.year - 1) + leapsBefore d.year + daysBeforeMonth d.year d.month + d.day + 1
      have hdim : daysInMonth d.year 12 = 31 := by norm_num [daysInMonth]
      have hb1 : daysBeforeMonth (d.year + 1) 1 = 0 := by
        norm_num [daysBeforeMonth, daysBeforeMonthCommon]
      have hb12 : daysBeforeMonth d.year 12 = 334 + (if isLeap d.year then 1 else 0) := by
        by_cases hl : isLeap d.year = true <;>
          simp [daysBeforeMonth, daysBeforeMonthCommon, hl]
      rw [leapsBefore_succ d.year hy, hb1, hm, hb12, hday, hm, hdim]
      split <;> omega

/-- Adding one day preserves validity. -/
lemma valid_addOneDay {d : Date} (hd : Valid d) : Valid (addOneDay d) := by
  obtain ⟨hy, hm1, hm2, hd1, hd2⟩ := hd
  unfold addOneDay
  by_cases h1 : d.day < daysInMonth d.year d.month
  · rw [if_pos h1]
    refine ⟨hy, hm1, hm2, ?_, ?_⟩
    · show 1 ≤ d.day + 1
      omega
    · show d.day + 1 ≤ daysInMonth d.year d.month
      omega
  · rw [if_neg h1]
    by_cases h2 : d.month < 12
    · rw [if_pos h2]
      refine ⟨hy, ?_, ?_, ?_, ?_⟩
      · show 1 ≤ d.month + 1
        omega
      · show d.month + 1 ≤ 12
        omega
      · show 1 ≤ 1
        omega
      · show 1 ≤ daysInMonth d.year (d.month + 1)
        exact daysInMonth_pos d.year (d.month + 1)
    · rw [if_neg h2]
      refine ⟨?_, ?_, ?_, ?_, ?_⟩
      · show 1 ≤ d.year + 1
        omega
      · show 1 ≤ 1
        omega
      · show (1 : Nat) ≤ 12
        omega
      · show 1 ≤ 1
        omega
      · show 1 ≤ daysInMonth (d.year + 1) 1
        exact daysInMonth_pos (d.year + 1) 1

/-- Adding one day moves strictly forward. -/
lemma lt_addOneDay {d : Date} (hd : Valid d) : d < addOneDay d := by
  obtain ⟨hy, hm1, hm2, hd1, hd2⟩ := hd
  unfold addOneDay
  by_cases h1 : d.day < daysInMonth d.year d.month
  · rw [if_pos h1]
    rw [Date.lt_iff]
    right
    refine ⟨rfl, Or.inr ⟨rfl, ?_⟩⟩
    show d.day < d.day + 1
    omega
  · rw [if_neg h1]
    by_cases h2 : d.month < 12
    · rw [if_pos h2]
      rw [Date.lt_iff]
      right
      refine ⟨rfl, Or.inl ?_⟩
      show d.month < d.month + 1
      omega
    · rw [if_neg h2]
      rw [Date.lt_iff]
      left
      show d.year < d.year + 1
      omega

/-- Every valid date has a positive ordinal. -/
lemma toOrdinal_pos {d : Date} (hd : Valid d) : 1 ≤ toOrdinal d := by
  obtain ⟨hy, hm1, hm2, hd1, hd2⟩ := hd
  unfold toOrdinal
  omega

/-- Weekday steps by one (mod 7) from day to day. -/
lemma weekday_addOneDay {d : Date} (hd : Valid d) :
    weekday (addOneDay d) = (weekday d + 1) % 7 := by
  unfold weekday
  rw [toOrdinal_addOneDay hd]
  have := toOrdinal_pos hd
  omega

/-- Weekend rollover preserves validity. -/
lemma valid_weekendRollover {d : Date} (hd : Valid d) : Valid (weekendRollover d) := by
  unfold weekendRollover
  split
  · exact valid_addOneDay (valid_addOneDay hd)
  · split
    · exact valid_addOneDay hd
    · exact hd

/-- A rolled date is a weekday (Monday..Friday). -/
lemma weekday_weekendRollover_lt {d : Date} (hd : Valid d) :
    weekday (weekendRollover d) < 5 := by
  unfold weekendRollover
  by_cases h5 : weekday d = 5
  · rw [if_pos h5]
    rw [weekday_addOneDay (valid_addOneDay hd), weekday_addOneDay hd, h5]
    norm_num
  · rw [if_neg h5]
    by_cases h6 : weekday d = 6
    · rw [if_pos h6, weekday_addOneDay hd, h6]
      norm_num
    · rw [if_neg h6]
      have : weekday d < 7 := Nat.mod_lt _ (by norm_num)
      omega

/-- Rolling a date already on a weekday does nothing. -/
lemma weekendRollover_of_weekday_lt {d : Date} (h : weekday d < 5) :
    weekendRollover d = d := by
  unfold weekendRollover
  rw [if_neg (by omega), if_neg (by omega)]

/-- Weekend rollover is idempotent. -/
lemma weekendRollover_idem {d : Date} (hd : Valid d) :
    weekendRollover (weekendRollover d) = weekendRollover d :=
  weekendRollover_of_weekday_lt (weekday_weekendRollover_lt hd)

/-- Rolling never moves a date backwards. -/
lemma le_weekendRollover {d : Date} (hd : Valid d) : d ≤ weekendRollover d := by
  unfold weekendRollover
  split
  · exact Or.inl (Date.lt_of_lt_of_le (lt_addOneDay hd)
      (Or.inl (lt_addOneDay (valid_addOneDay hd))))
  · split
    · exact Or.inl (lt_addOneDay hd)
    · exact Or.inr rfl

/-- Strict comparison of two explicit dates, fieldwise. -/
lemma Date.mk_lt_mk (y1 m1 d1 y2 m2 d2 : Nat) :
    (⟨y1, m1, d1⟩ : Date) < (⟨y2, m2, d2⟩ : Date) ↔
      (y1 < y2 ∨ (y1 = y2 ∧ (m1 < m2 ∨ (m1 = m2 ∧ d1 < d2)))) := Iff.rfl

/-- Comparison of two explicit dates, fieldwise. -/
lemma Date.mk_le_mk (y1 m1 d1 y2 m2 d2 : Nat) :
    (⟨y1, m1, d1⟩ : Date) ≤ (⟨y2, m2, d2⟩ : Date) ↔
      (y1 < y2 ∨ (y1 = y2 ∧ (m1 < m2 ∨ (m1 = m2 ∧ d1 ≤ d2)))) := by
  rw [Date.le_iff]

/-- Unfolding of the fueled `next_payment_date` body. -/
lemma npdAux_succ (c : Cycle) (fuel : Nat) (d : Date) :
    npdAux c (fuel+1) d =
      (if d.month < c.m1 then some (weekendRollover ⟨d.year, c.m1, c.d1⟩)
      else if c.m1 < d.month ∧ d.month < c.m2 then some (weekendRollover ⟨d.year, c.m2, c.d2⟩)
      else if c.m2 < d.month ∧ d.month < c.m3 then some (weekendRollover ⟨d.year, c.m3, c.d3⟩)
      else if c.m3 < d.month ∧ d.month < c.m4 then some (weekendRollover ⟨d.year, c.m4, c.d4⟩)
      else if d.day < c.d1 then some (weekendRollover ⟨d.year, d.month, c.d1⟩)
      else (npdAux c fuel (addMonths1 d)).map weekendRollover) := rfl

/-- Validity of an anchor-shaped date with day at most 28. -/
lemma valid_mk_small (y m dd : Nat) (hy : 1 ≤ y) (hm1 : 1 ≤ m) (hm2 : m ≤ 12)
    (hd1 : 1 ≤ dd) (hdd : dd ≤ 28) : Valid ⟨y, m, dd⟩ := by
  refine ⟨hy, hm1, hm2, hd1, ?_⟩
  show dd ≤ daysInMonth y m
  have h28 : 28 ≤ daysInMonth y m := by
    unfold daysInMonth
    split
    · split <;> omega
    · split <;> omega
  omega

/-- The standard-cycle `next_payment_date` body on an explicit date. -/
lemma npdAux_std_mk (fuel y m day : Nat) :
    npdAux standardCycle (fuel+1) ⟨y, m, day⟩ =
      (if m < 3 then some (weekendRollover ⟨y, 3, 20⟩)
      else if 3 < m ∧ m < 6 then some (weekendRollover ⟨y, 6, 20⟩)
      else if 6 < m ∧ m < 9 then some (weekendRollover ⟨y, 9, 20⟩)
      else if 9 < m ∧ m < 12 then some (weekendRollover ⟨y, 12, 20⟩)
      else if day < 20 then some (weekendRollover ⟨y, m, 20⟩)
      else (npdAux standardCycle fuel (addMonths1 ⟨y, m, day⟩)).map weekendRollover) := rfl

/-- `relativedelta(months=1)` on an explicit date. -/
lemma addMonths1_mk (y m day : Nat) :
    addMonths1 ⟨y, m, day⟩ =
      (if m < 12 then (⟨y, m + 1, min day (daysInMonth y (m + 1))⟩ : Date)
      else ⟨y + 1, 1, min day (daysInMonth (y + 1) 1)⟩) := rfl

/-- The anchor candidates of the standard cycle on an explicit date. -/
lemma nextAnchorSpec_std_mk (y m day : Nat) :
    nextAnchorSpec standardCycle ⟨y, m, day⟩ =
      (([⟨y, 3, 20⟩, ⟨y, 6, 20⟩, ⟨y, 9, 20⟩, ⟨y, 12, 20⟩, ⟨y+1, 3, 20⟩] : List Date).filter
        (fun a => decide ((⟨y, m, day⟩ : Date) < a))).headD ⟨0, 0, 0⟩ := rfl

/-- Evaluation of the standard-cycle `next_payment_date`: for every valid
date it returns the weekend-rolled earliest cycle anchor strictly after the
input date. -/
lemma npd_std_eval (f y m day : Nat) (hv : Valid ⟨y, m, day⟩) :
    npdAux standardCycle (f + 1 + 1) ⟨y, m, day⟩
      = some (weekendRollover (nextAnchorSpec standardCycle ⟨y, m, day⟩)) := by
  have hY : 1 ≤ y := hv.1
  have hM1 : 1 ≤ m := hv.2.1
  have hM2 : m ≤ 12 := hv.2.2.1
  by_cases b1 : m < 3
  · rw [npdAux_std_mk, if_pos b1, nextAnchorSpec_std_mk,
      List.filter_cons_of_pos (by simp only [decide_eq_true_eq, Date.mk_lt_mk, eq_self_iff_true, true_and]; omega)]
    rfl
  · by_cases b2 : 3 < m ∧ m < 6
    · rw [npdAux_std_mk, if_neg b1, if_pos b2, nextAnchorSpec_std_mk,
        List.filter_cons_of_neg (by simp only [decide_eq_true_eq, Date.mk_lt_mk, eq_self_iff_true, true_and]; omega),
        List.filter_cons_of_pos (by simp only [decide_eq_true_eq, Date.mk_lt_mk, eq_self_iff_true, true_and]; omega)]
      rfl
    · by_cases b3 : 6 < m ∧ m < 9
      · rw [npdAux_std_mk, if_neg b1, if_neg b2, if_pos b3, nextAnchorSpec_std_mk,
          List.filter_cons_of_neg (by simp only [decide_eq_true_eq, Date.mk_lt_mk, eq_self_iff_true, true_and]; omega),
          List.filter_cons_of_neg (by simp only [decide_eq_true_eq, Date.mk_lt_mk, eq_self_iff_true, true_and]; omega),
          List.filter_cons_of_pos (by simp only [decide_eq_true_eq, Date.mk_lt_mk, eq_self_iff_true, true_and]; omega)]
        rfl
      · by_cases b4 : 9 < m ∧ m < 12
        · rw [npdAux_std_mk, if_neg b1, if_neg b2, if_neg b3, if_pos b4, nextAnchorSpec_std_mk,
            List.filter_cons_of_neg (by simp only [decide_eq_true_eq, Date.mk_lt_mk, eq_self_iff_true, true_and]; omega),
            List.filter_cons_of_neg (by simp only [decide_eq_true_eq, Date.mk_lt_mk, eq_self_iff_true, true_and]; omega),
            List.filter_cons_of_neg (by simp only [decide_eq_true_eq, Date.mk_lt_mk, eq_self_iff_true, true_and]; omega),
            List.filter_cons_of_pos (by simp only [decide_eq_true_eq, Date.mk_lt_mk, eq_self_iff_true, true_and]; omega)]
          rfl
        · have hm4 : m = 3 ∨ m = 6 ∨ m = 9 ∨ m = 12 := by omega
          by_cases bd : day < 20
          · -- anchor month, anchor day not yet reached
            rcases hm4 with rfl | rfl | rfl | rfl
            · rw [npdAux_std_mk, if_neg b1, if_neg b2, if_neg b3, if_neg b4, if_pos bd,
                nextAnchorSpec_std_mk,
                List.filter_cons_of_pos (by simp only [decide_eq_true_eq, Date.mk_lt_mk, eq_self_iff_true, true_and]; omega)]
              rfl
            · rw [npdAux_std_mk, if_neg b1, if_neg b2, if_neg b3, if_neg b4, if_pos bd,
                nextAnchorSpec_std_mk,
                List.filter_cons_of_neg (by simp only [decide_eq_true_eq, Date.mk_lt_mk, eq_self_iff_true, true_and]; omega),
                List.filter_cons_of_pos (by simp only [decide_eq_true_eq, Date.mk_lt_mk, eq_self_iff_true, true_and]; omega)]
              rfl
            · rw [npdAux_std_mk, if_neg b1, if_neg b2, if_neg b3, if_neg b4, if_pos bd,
                nextAnchorSpec_std_mk,
                List.filter_cons_of_neg (by simp only [decide_eq_true_eq, Date.mk_lt_mk, eq_self_iff_true, true_and]; omega),
                List.filter_cons_of_neg (by simp only [decide_eq_true_eq, Date.mk_lt_mk, eq_self_iff_true, true_and]; omega),
                List.filter_cons_of_pos (by simp only [decide_eq_true_eq, Date.mk_lt_mk, eq_self_iff_true, true_and]; omega)]
              rfl
            · rw [npdAux_std_mk, if_neg b1, if_neg b2, if_neg b3, if_neg b4, if_pos bd,
                nextAnchorSpec_std_mk,
                List.filter_cons_of_neg (by simp only [decide_eq_true_eq, Date.mk_lt_mk, eq_self_iff_true, true_and]; omega),
                List.filter_cons_of_neg (by simp only [decide_eq_true_eq, Date.mk_lt_mk, eq_self_iff_true, true_and]; omega),
                List.filter_cons_of_neg (by simp only [decide_eq_true_eq, Date.mk_lt_mk, eq_self_iff_true, true_and]; omega),
                List.filter_cons_of_pos (by simp only [decide_eq_true_eq, Date.mk_lt_mk, eq_self_iff_true, true_and]; omega)]
              rfl
          · -- anchor month, anchor day passed: step one month and retry
            rcases hm4 with rfl | rfl | rfl | rfl
            · rw [npdAux_std_mk, if_neg b1, if_neg b2, if_neg b3, if_neg b4, if_neg bd,
                addMonths1_mk, if_pos (show (3:Nat) < 12 by omega),
                (show daysInMonth y (3+1) = 30 by norm_num [daysInMonth]),
                npdAux_std_mk, if_neg (by omega), if_pos (by omega)]
              show some (weekendRollover (weekendRollover ⟨y, 6, 20⟩)) = _
              rw [weekendRollover_idem
                  (valid_mk_small y 6 20 hY (by omega) (by omega) (by omega) (by omega)),
                nextAnchorSpec_std_mk,
                List.filter_cons_of_neg (by simp only [decide_eq_true_eq, Date.mk_lt_mk, eq_self_iff_true, true_and]; omega),
                List.filter_cons_of_pos (by simp only [decide_eq_true_eq, Date.mk_lt_mk, eq_self_iff_true, true_and]; omega)]
              rfl
            · rw [npdAux_std_mk, if_neg b1, if_neg b2, if_neg b3, if_neg b4, if_neg bd,
                addMonths1_mk, if_pos (show (6:Nat) < 12 by omega),
                (show daysInMonth y (6+1) = 31 by norm_num [daysInMonth]),
                npdAux_std_mk, if_neg (by omega), if_neg (by omega), if_pos (by omega)]
              show some (weekendRollover (weekendRollover ⟨y, 9, 20⟩)) = _
              rw [weekendRollover_idem
                  (valid_mk_small y 9 20 hY (by omega) (by omega) (by omega) (by omega)),
                nextAnchorSpec_std_mk,
                List.filter_cons_of_neg (by simp only [decide_eq_true_eq, Date.mk_lt_mk, eq_self_iff_true, true_and]; omega),
                List.filter_cons_of_neg (by simp only [decide_eq_true_eq, Date.mk_lt_mk, eq_self_iff_true, true_and]; omega),
                List.filter_cons_of_pos (by simp only [decide_eq_true_eq, Date.mk_lt_mk, eq_self_iff_true, true_and]; omega)]
              rfl
            · rw [npdAux_std_mk, if_neg b1, if_neg b2, if_neg b3, if_neg b4, if_neg bd,
                addMonths1_mk, if_pos (show (9:Nat) < 12 by omega),
                (show daysInMonth y (9+1) = 31 by norm_num [daysInMonth]),
                npdAux_std_mk, if_neg (by omega), if_neg (by omega), if_neg (by omega),
                if_pos (by omega)]
              show some (weekendRollover (weekendRollover ⟨y, 12, 20⟩)) = _
              rw [weekendRollover_idem
                  (valid_mk_small y 12 20 hY (by omega) (by omega) (by omega) (by omega)),
                nextAnchorSpec_std_mk,
                List.filter_cons_of_neg (by simp only [decide_eq_true_eq, Date.mk_lt_mk, eq_self_iff_true, true_and]; omega),
                List.filter_cons_of_neg (by simp only [decide_eq_true_eq, Date.mk_lt_mk, eq_self_iff_true, true_and]; omega),
                List.filter_cons_of_neg (by simp only [decide_eq_true_eq, Date.mk_lt_mk, eq_self_iff_true, true_and]; omega),
                List.filter_cons_of_pos (by simp only [decide_eq_true_eq, Date.mk_lt_mk, eq_self_iff_true, true_and]; omega)]
              rfl
            · rw [npdAux_std_mk, if_neg b1, if_neg b2, if_neg b3, if_neg b4, if_neg bd,
                addMonths1_mk, if_neg (show ¬((12:Nat) < 12) by omega),
                (show daysInMonth (y+1) 1 = 31 by norm_num [daysInMonth]),
                npdAux_std_mk, if_pos (by omega)]
              show some (weekendRollover (weekendRollover ⟨y + 1, 3, 20⟩)) = _
              rw [weekendRollover_idem
                  (valid_mk_small (y+1) 3 20 (by omega) (by omega) (by omega) (by omega) (by omega)),
                nextAnchorSpec_std_mk,
                List.filter_cons_of_neg (by simp only [decide_eq_true_eq, Date.mk_lt_mk, eq_self_iff_true, true_and]; omega),
                List.filter_cons_of_neg (by simp only [decide_eq_true_eq, Date.mk_lt_mk, eq_self_iff_true, true_and]; omega),
                List.filter_cons_of_neg (by simp only [decide_eq_true_eq, Date.mk_lt_mk, eq_self_iff_true, true_and]; omega),
                List.filter_cons_of_neg (by simp only [decide_eq_true_eq, Date.mk_lt_mk, eq_self_iff_true, true_and]; omega),
                List.filter_cons_of_pos (by simp only [decide_eq_true_eq, Date.mk_lt_mk, eq_self_iff_true, true_and]; omega)]
              rfl

/-- The non-standard-cycle `next_payment_date` body on an explicit date. -/
lemma npdAux_nonstd_mk (fuel y m day : Nat) :
    npdAux nonstandardCycle (fuel+1) ⟨y, m, day⟩ =
      (if m < 2 then some (weekendRollover ⟨y, 2, 15⟩)
      else if 2 < m ∧ m < 5 then some (weekendRollover ⟨y, 5, 15⟩)
      else if 5 < m ∧ m < 8 then some (weekendRollover ⟨y, 8, 15⟩)
      else if 8 < m ∧ m < 11 then some (weekendRollover ⟨y, 11, 15⟩)
      else if day < 15 then some (weekendRollover ⟨y, m, 15⟩)
      else (npdAux nonstandardCycle fuel (addMonths1 ⟨y, m, day⟩)).map weekendRollover) := rfl

/-- The anchor candidates of the non-standard cycle on an explicit date. -/
lemma nextAnchorSpec_nonstd_mk (y m day : Nat) :
    nextAnchorSpec nonstandardCycle ⟨y, m, day⟩ =
      (([⟨y, 2, 15⟩, ⟨y, 5, 15⟩, ⟨y, 8, 15⟩, ⟨y, 11, 15⟩, ⟨y+1, 2, 15⟩] : List Date).filter
        (fun a => decide ((⟨y, m, day⟩ : Date) < a))).headD ⟨0, 0, 0⟩ := rfl

/-- The December defect of the non-standard cycle: a December date before the
15th returns December 15 — a date that is not an anchor of the
Feb/May/Aug/Nov cycle. -/
lemma npd_nonstd_december (f y day : Nat) (hday : day < 15) :
    npdAux nonstandardCycle (f + 1) ⟨y, 12, day⟩
      = some (weekendRollover ⟨y, 12, 15⟩) := by
  rw [npdAux_nonstd_mk, if_neg (by omega), if_neg (by omega), if_neg (by omega),
    if_neg (by omega), if_pos hday]

/-- Evaluation of the non-standard-cycle `next_payment_date` away from the
December defect: it returns the weekend-rolled earliest cycle anchor
strictly after the input date. -/
lemma npd_nonstd_eval (f y m day : Nat) (hv : Valid ⟨y, m, day⟩)
    (hdec : ¬(m = 12 ∧ day < 15)) :
    npdAux nonstandardCycle (f + 1 + 1 + 1) ⟨y, m, day⟩
      = some (weekendRollover (nextAnchorSpec nonstandardCycle ⟨y, m, day⟩)) := by
  have hY : 1 ≤ y := hv.1
  have hM1 : 1 ≤ m := hv.2.1
  have hM2 : m ≤ 12 := hv.2.2.1
  by_cases b1 : m < 2
  · rw [npdAux_nonstd_mk, if_pos b1, nextAnchorSpec_nonstd_mk,
      List.filter_cons_of_pos (by simp only [decide_eq_true_eq, Date.mk_lt_mk, eq_self_iff_true, true_and]; omega)]
    rfl
  · by_cases b2 : 2 < m ∧ m < 5
    · rw [npdAux_nonstd_mk, if_neg b1, if_pos b2, nextAnchorSpec_nonstd_mk,
        List.filter_cons_of_neg (by simp only [decide_eq_true_eq, Date.mk_lt_mk, eq_self_iff_true, true_and]; omega),
        List.filter_cons_of_pos (by simp only [decide_eq_true_eq, Date.mk_lt_mk, eq_self_iff_true, true_and]; omega)]
      rfl
    · by_cases b3 : 5 < m ∧ m < 8
      · rw [npdAux_nonstd_mk, if_neg b1, if_neg b2, if_pos b3, nextAnchorSpec_nonstd_mk,
          List.filter_cons_of_neg (by simp only [decide_eq_true_eq, Date.mk_lt_mk, eq_self_iff_true, true_and]; omega),
          List.filter_cons_of_neg (by simp only [decide_eq_true_eq, Date.mk_lt_mk, eq_self_iff_true, true_and]; omega),
          List.filter_cons_of_pos (by simp only [decide_eq_true_eq, Date.mk_lt_mk, eq_self_iff_true, true_and]; omega)]
        rfl
      · by_cases b4 : 8 < m ∧ m < 11
        · rw [npdAux_nonstd_mk, if_neg b1, if_neg b2, if_neg b3, if_pos b4,
            nextAnchorSpec_nonstd_mk,
            List.filter_cons_of_neg (by simp only [decide_eq_true_eq, Date.mk_lt_mk, eq_self_iff_true, true_and]; omega),
            List.filter_cons_of_neg (by simp only [decide_eq_true_eq, Date.mk_lt_mk, eq_self_iff_true, true_and]; omega),
            List.filter_cons_of_neg (by simp only [decide_eq_true_eq, Date.mk_lt_mk, eq_self_iff_true, true_and]; omega),
            List.filter_cons_of_pos (by simp only [decide_eq_true_eq, Date.mk_lt_mk, eq_self_iff_true, true_and]; omega)]
          rfl
        · have hm5 : m = 2 ∨ m = 5 ∨ m = 8 ∨ m = 11 ∨ m = 12 := by omega
          by_cases bd : day < 15
          · have hm4 : m = 2 ∨ m = 5 ∨ m = 8 ∨ m = 11 := by
              rcases hm5 with rfl | rfl | rfl | rfl | rfl
              · omega
              · omega
              · omega
              · omega
              · exact absurd ⟨rfl, bd⟩ hdec
            rcases hm4 with rfl | rfl | rfl | rfl
            · rw [npdAux_nonstd_mk, if_neg b1, if_neg b2, if_neg b3, if_neg b4, if_pos bd,
                nextAnchorSpec_nonstd_mk,
                List.filter_cons_of_pos (by simp only [decide_eq_true_eq, Date.mk_lt_mk, eq_self_iff_true, true_and]; omega)]
              rfl
            · rw [npdAux_nonstd_mk, if_neg b1, if_neg b2, if_neg b3, if_neg b4, if_pos bd,
                nextAnchorSpec_nonstd_mk,
                List.filter_cons_of_neg (by simp only [decide_eq_true_eq, Date.mk_lt_mk, eq_self_iff_true, true_and]; omega),
                List.filter_cons_of_pos (by simp only [decide_eq_true_eq, Date.mk_lt_mk, eq_self_iff_true, true_and]; omega)]
              rfl
            · rw [npdAux_nonstd_mk, if_neg b1, if_neg b2, if_neg b3, if_neg b4, if_pos bd,
                nextAnchorSpec_nonstd_mk,
                List.filter_cons_of_neg (by simp only [decide_eq_true_eq, Date.mk_lt_mk, eq_self_iff_true, true_and]; omega),
                List.filter_cons_of_neg (by simp only [decide_eq_true_eq, Date.mk_lt_mk, eq_self_iff_true, true_and]; omega),
                List.filter_cons_of_pos (by simp only [decide_eq_true_eq, Date.mk_lt_mk, eq_self_iff_true, true_and]; omega)]
              rfl
            · rw [npdAux_nonstd_mk, if_neg b1, if_neg b2, if_neg b3, if_neg b4, if_pos bd,
                nextAnchorSpec_nonstd_mk,
                List.filter_cons_of_neg (by simp only [decide_eq_true_eq, Date.mk_lt_mk, eq_self_iff_true, true_and]; omega),
                List.filter_cons_of_neg (by simp only [decide_eq_true_eq, Date.mk_lt_mk, eq_self_iff_true, true_and]; omega),
                List.filter_cons_of_neg (by simp only [decide_eq_true_eq, Date.mk_lt_mk, eq_self_iff_true, true_and]; omega),
                List.filter_cons_of_pos (by simp only [decide_eq_true_eq, Date.mk_lt_mk, eq_self_iff_true, true_and]; omega)]
              rfl
          · rcases hm5 with rfl | rfl | rfl | rfl | rfl
            · rw [npdAux_nonstd_mk, if_neg b1, if_neg b2, if_neg b3, if_neg b4, if_neg bd,
                addMonths1_mk, if_pos (show (2:Nat) < 12 by omega),
                (show daysInMonth y (2+1) = 31 by norm_num [daysInMonth]),
                npdAux_nonstd_mk, if_neg (by omega), if_pos (by omega)]
              show some (weekendRollover (weekendRollover ⟨y, 5, 15⟩)) = _
              rw [weekendRollover_idem
                  (valid_mk_small y 5 15 hY (by omega) (by omega) (by omega) (by omega)),
                nextAnchorSpec_nonstd_mk,
                List.filter_cons_of_neg (by simp only [decide_eq_true_eq, Date.mk_lt_mk, eq_self_iff_true, true_and]; omega),
                List.filter_cons_of_pos (by simp only [decide_eq_true_eq, Date.mk_lt_mk, eq_self_iff_true, true_and]; omega)]
              rfl
            · rw [npdAux_nonstd_mk, if_neg b1, if_neg b2, if_neg b3, if_neg b4, if_neg bd,
                addMonths1_mk, if_pos (show (5:Nat) < 12 by omega),
                (show daysInMonth y (5+1) = 30 by norm_num [daysInMonth]),
                npdAux_nonstd_mk, if_neg (by omega), if_neg (by omega), if_pos (by omega)]
              show some (weekendRollover (weekendRollover ⟨y, 8, 15⟩)) = _
              rw [weekendRollover_idem
                  (valid_mk_small y 8 15 hY (by omega) (by omega) (by omega) (by omega)),
                nextAnchorSpec_nonstd_mk,
                List.filter_cons_of_neg (by simp only [decide_eq_true_eq, Date.mk_lt_mk, eq_self_iff_true, true_and]; omega),
                List.filter_cons_of_neg (by simp only [decide_eq_true_eq, Date.mk_lt_mk, eq_self_iff_true, true_and]; omega),
                List.filter_cons_of_pos (by simp only [decide_eq_true_eq, Date.mk_lt_mk, eq_self_iff_true, true_and]; omega)]
              rfl
            · rw [npdAux_nonstd_mk, if_neg b1, if_neg b2, if_neg b3, if_neg b4, if_neg bd,
                addMonths1_mk, if_pos (show (8:Nat) < 12 by omega),
                (show daysInMonth y (8+1) = 30 by norm_num [daysInMonth]),
                npdAux_nonstd_mk, if_neg (by omega), if_neg (by omega), if_neg (by omega),
                if_pos (by omega)]
              show some (weekendRollover (weekendRollover ⟨y, 11, 15⟩)) = _
              rw [weekendRollover_idem
                  (valid_mk_small y 11 15 hY (by omega) (by omega) (by omega) (by omega)),
                nextAnchorSpec_nonstd_mk,
                List.filter_cons_of_neg (by simp only [decide_eq_true_eq, Date.mk_lt_mk, eq_self_iff_true, true_and]; omega),
                List.filter_cons_of_neg (by simp only [decide_eq_true_eq, Date.mk_lt_mk, eq_self_iff_true, true_and]; omega),
                List.filter_cons_of_neg (by simp only [decide_eq_true_eq, Date.mk_lt_mk, eq_self_iff_true, true_and]; omega),
                List.filter_cons_of_pos (by simp only [decide_eq_true_eq, Date.mk_lt_mk, eq_self_iff_true, true_and]; omega)]
              rfl
            · -- November on/after the 15th: two recursive steps (December, then January)
              rw [npdAux_nonstd_mk, if_neg b1, if_neg b2, if_neg b3, if_neg b4, if_neg bd,
                addMonths1_mk, if_pos (show (11:Nat) < 12 by omega),
                (show daysInMonth y (11+1) = 31 by norm_num [daysInMonth]),
                npdAux_nonstd_mk, if_neg (by omega), if_neg (by omega), if_neg (by omega),
                if_neg (by omega), if_neg (by omega),
                addMonths1_mk, if_neg (show ¬((12:Nat) < 12) by omega),
                (show daysInMonth (y+1) 1 = 31 by norm_num [daysInMonth]),
                npdAux_nonstd_mk, if_pos (by omega)]
              show some (weekendRollover (weekendRollover (weekendRollover ⟨y + 1, 2, 15⟩))) = _
              rw [weekendRollover_idem (valid_weekendRollover
                  (valid_mk_small (y+1) 2 15 (by omega) (by omega) (by omega) (by omega) (by omega))),
                weekendRollover_idem
                  (valid_mk_small (y+1) 2 15 (by omega) (by omega) (by omega) (by omega) (by omega)),
                nextAnchorSpec_nonstd_mk,
                List.filter_cons_of_neg (by simp only [decide_eq_true_eq, Date.mk_lt_mk, eq_self_iff_true, true_and]; omega),
                List.filter_cons_of_neg (by simp only [decide_eq_true_eq, Date.mk_lt_mk, eq_self_iff_true, true_and]; omega),
                List.filter_cons_of_neg (by simp only [decide_eq_true_eq, Date.mk_lt_mk, eq_self_iff_true, true_and]; omega),
                List.filter_cons_of_neg (by simp only [decide_eq_true_eq, Date.mk_lt_mk, eq_self_iff_true, true_and]; omega),
                List.filter_cons_of_pos (by simp only [decide_eq_true_eq, Date.mk_lt_mk, eq_self_iff_true, true_and]; omega)]
              rfl
            · -- December on/after the 15th: one recursive step into January
              rw [npdAux_nonstd_mk, if_neg b1, if_neg b2, if_neg b3, if_neg b4, if_neg bd,
                addMonths1_mk, if_neg (show ¬((12:Nat) < 12) by omega),
                (show daysInMonth (y+1) 1 = 31 by norm_num [daysInMonth]),
                npdAux_nonstd_mk, if_pos (by omega)]
              show some (weekendRollover (weekendRollover ⟨y + 1, 2, 15⟩)) = _
              rw [weekendRollover_idem
                  (valid_mk_small (y+1) 2 15 (by omega) (by omega) (by omega) (by omega) (by omega)),
                nextAnchorSpec_nonstd_mk,
                List.filter_cons_of_neg (by simp only [decide_eq_true_eq, Date.mk_lt_mk, eq_self_iff_true, true_and]; omega),
                List.filter_cons_of_neg (by simp only [decide_eq_true_eq, Date.mk_lt_mk, eq_self_iff_true, true_and]; omega),
                List.filter_cons_of_neg (by simp only [decide_eq_true_eq, Date.mk_lt_mk, eq_self_iff_true, true_and]; omega),
                List.filter_cons_of_neg (by simp only [decide_eq_true_eq, Date.mk_lt_mk, eq_self_iff_true, true_and]; omega),
                List.filter_cons_of_pos (by simp only [decide_eq_true_eq, Date.mk_lt_mk, eq_self_iff_true, true_and]; omega)]
              rfl

/-- The head of a non-empty filtered list satisfies the predicate. -/
lemma headD_filter_pos {α : Type} (p : α → Bool) (l : List α) (d0 : α)
    (hne : l.filter p ≠ []) : p ((l.filter p).headD d0) = true := by
  cases h : l.filter p with
  | nil => exact absurd h hne
  | cons a t =>
      have ha : a ∈ l.filter p := by
        rw [h]
        exact List.mem_cons_self a t
      have := (List.mem_filter.1 ha).2
      exact this

/-- The spec's next anchor is strictly after the input date. -/
lemma lt_nextAnchorSpec (c : Cycle) (d : Date) : d < nextAnchorSpec c d := by
  have hc5 : d < (⟨d.year + 1, c.m1, c.d1⟩ : Date) :=
    Or.inl (Nat.lt_succ_self d.year)
  have hne : (anchorCandidates c d).filter (fun a => decide (d < a)) ≠ [] := by
    intro h
    have hmem : (⟨d.year + 1, c.m1, c.d1⟩ : Date) ∈ anchorCandidates c d := by
      unfold anchorCandidates
      simp
    have hnone := List.filter_eq_nil_iff.1 h _ hmem
    exact hnone (decide_eq_true hc5)
  have hhead := headD_filter_pos (fun a => decide (d < a)) (anchorCandidates c d) ⟨0, 0, 0⟩ hne
  unfold nextAnchorSpec
  exact of_decide_eq_true hhead

/-- The spec's next anchor belongs to the candidate list. -/
lemma nextAnchorSpec_mem (c : Cycle) (d : Date) :
    nextAnchorSpec c d ∈ anchorCandidates c d := by
  have hc5 : d < (⟨d.year + 1, c.m1, c.d1⟩ : Date) :=
    Or.inl (Nat.lt_succ_self d.year)
  have hne : (anchorCandidates c d).filter (fun a => decide (d < a)) ≠ [] := by
    intro h
    have hmem : (⟨d.year + 1, c.m1, c.d1⟩ : Date) ∈ anchorCandidates c d := by
      unfold anchorCandidates
      simp
    have hnone := List.filter_eq_nil_iff.1 h _ hmem
    exact hnone (decide_eq_true hc5)
  unfold nextAnchorSpec
  cases h : (anchorCandidates c d).filter (fun a => decide (d < a)) with
  | nil => exact absurd h hne
  | cons a t =>
      have ha : a ∈ (anchorCandidates c d).filter (fun a => decide (d < a)) := by
        rw [h]
        exact List.mem_cons_self a t
      exact (List.mem_filter.1 ha).1

/-- Every standard-cycle anchor candidate is a valid date. -/
lemma anchors_valid_std (d : Date) (hy : 1 ≤ d.year) :
    ∀ a ∈ anchorCandidates standardCycle d, Valid a := by
  intro a ha
  simp only [anchorCandidates, standardCycle, List.mem_cons, List.not_mem_nil, or_false] at ha
  rcases ha with rfl | rfl | rfl | rfl | rfl
  · exact valid_mk_small d.year 3 20 hy (by omega) (by omega) (by omega) (by omega)
  · exact valid_mk_small d.year 6 20 hy (by omega) (by omega) (by omega) (by omega)
  · exact valid_mk_small d.year 9 20 hy (by omega) (by omega) (by omega) (by omega)
  · exact valid_mk_small d.year 12 20 hy (by omega) (by omega) (by omega) (by omega)
  · exact valid_mk_small (d.year + 1) 3 20 (by omega) (by omega) (by omega) (by omega) (by omega)

/-- Every non-standard-cycle anchor candidate is a valid date. -/
lemma anchors_valid_nonstd (d : Date) (hy : 1 ≤ d.year) :
    ∀ a ∈ anchorCandidates nonstandardCycle d, Valid a := by
  intro a ha
  simp only [anchorCandidates, nonstandardCycle, List.mem_cons, List.not_mem_nil, or_false] at ha
  rcases ha with rfl | rfl | rfl | rfl | rfl
  · exact valid_mk_small d.year 2 15 hy (by omega) (by omega) (by omega) (by omega)
  · exact valid_mk_small d.year 5 15 hy (by omega) (by omega) (by omega) (by omega)
  · exact valid_mk_small d.year 8 15 hy (by omega) (by omega) (by omega) (by omega)
  · exact valid_mk_small d.year 11 15 hy (by omega) (by omega) (by omega) (by omega)
  · exact valid_mk_small (d.year + 1) 2 15 (by omega) (by omega) (by omega) (by omega) (by omega)

/-- The standard-cycle payment date is valid and strictly later. -/
lemma npd_std_valid_lt (d : Date) (hv : Valid d) :
    Valid (nextPaymentDate standardCycle d) ∧ d < nextPaymentDate standardCycle d := by
  obtain ⟨y, m, day⟩ := d
  have hval : Valid (nextAnchorSpec standardCycle ⟨y, m, day⟩) :=
    anchors_valid_std ⟨y, m, day⟩ hv.1 _ (nextAnchorSpec_mem standardCycle ⟨y, m, day⟩)
  unfold nextPaymentDate
  rw [show (13:Nat) = 11 + 1 + 1 from rfl, npd_std_eval 11 y m day hv]
  exact ⟨valid_weekendRollover hval,
    Date.lt_of_lt_of_le (lt_nextAnchorSpec standardCycle ⟨y, m, day⟩)
      (le_weekendRollover hval)⟩

/-- The non-standard-cycle payment date is valid and strictly later (also
through the December defect branch). -/
lemma npd_nonstd_valid_lt (d : Date) (hv : Valid d) :
    Valid (nextPaymentDate nonstandardCycle d) ∧ d < nextPaymentDate nonstandardCycle d := by
  obtain ⟨y, m, day⟩ := d
  by_cases hdec : m = 12 ∧ day < 15
  · obtain ⟨rfl, hday⟩ := hdec
    have hval : Valid (⟨y, 12, 15⟩ : Date) :=
      valid_mk_small y 12 15 hv.1 (by omega) (by omega) (by omega) (by omega)
    unfold nextPaymentDate
    rw [show (13:Nat) = 12 + 1 from rfl, npd_nonstd_december 12 y day hday]
    refine ⟨valid_weekendRollover hval, ?_⟩
    exact Date.lt_of_lt_of_le ((Date.mk_lt_mk y 12 day y 12 15).2 (by omega))
      (le_weekendRollover hval)
  · have hval : Valid (nextAnchorSpec nonstandardCycle ⟨y, m, day⟩) :=
      anchors_valid_nonstd ⟨y, m, day⟩ hv.1 _ (nextAnchorSpec_mem nonstandardCycle ⟨y, m, day⟩)
    unfold nextPaymentDate
    rw [show (13:Nat) = 10 + 1 + 1 + 1 from rfl, npd_nonstd_eval 10 y m day hv hdec]
    exact ⟨valid_weekendRollover hval,
      Date.lt_of_lt_of_le (lt_nextAnchorSpec nonstandardCycle ⟨y, m, day⟩)
        (le_weekendRollover hval)⟩

/-- Ordinal monotonicity for the date order. -/
lemma toOrdinal_le_of_le {a b : Date} (ha : Valid a) (hb : Valid b) (hab : a ≤ b) :
    toOrdinal a ≤ toOrdinal b := by
  rcases hab with h | rfl
  · exact le_of_lt (toOrdinal_lt_of_lt ha hb h)
  · exact le_refl _

/-- Unfolding of the fueled premium-leg walk. -/
lemma periodsAux_succ (c : Cycle) (mat : Date) (fuel : Nat) (cur : Date) :
    periodsAux c mat (fuel+1) cur =
      (if nextPaymentDate c cur ≤ mat
      then (periodsAux c mat fuel (nextPaymentDate c cur)).map
        (fun l => (cur, nextPaymentDate c cur) :: l)
      else some []) := rfl

/-- The premium-leg walk terminates within its day-count fuel, for any cycle
whose payment dates are valid and strictly increasing. -/
lemma periodsAux_isSome (c : Cycle)
    (hstep : ∀ d : Date, Valid d → Valid (nextPaymentDate c d) ∧ d < nextPaymentDate c d)
    (mat : Date) (hmat : Valid mat) :
    ∀ (fuel : Nat) (cur : Date), Valid cur → toOrdinal mat + 1 - toOrdinal cur < fuel →
      (periodsAux c mat fuel cur).isSome = true := by
  intro fuel
  induction fuel with
  | zero =>
      intro cur _ hb
      omega
  | succ fuel ih =>
      intro cur hcur hb
      rw [periodsAux_succ]
      by_cases hle : nextPaymentDate c cur ≤ mat
      · rw [if_pos hle]
        obtain ⟨hvn, hlt⟩ := hstep cur hcur
        have h1 : toOrdinal cur < toOrdinal (nextPaymentDate c cur) :=
          toOrdinal_lt_of_lt hcur hvn hlt
        have h2 : toOrdinal (nextPaymentDate c cur) ≤ toOrdinal mat :=
          toOrdinal_le_of_le hvn hmat hle
        have hrec := ih (nextPaymentDate c cur) hvn (by omega)
        cases hcase : periodsAux c mat fuel (nextPaymentDate c cur) with
        | none =>
            rw [hcase] at hrec
            simp at hrec
        | some l => rfl
      · rw [if_neg hle]
        rfl

/-- Every period collected by the premium-leg walk ends at or before the
maturity date. -/
lemma periods_ends_le (c : Cycle) (mat : Date) :
    ∀ (fuel : Nat) (cur : Date) (pr : Date × Date),
      pr ∈ (periodsAux c mat fuel cur).getD [] → pr.2 ≤ mat := by
  intro fuel
  induction fuel with
  | zero =>
      intro cur pr hpr
      simp [periodsAux] at hpr
  | succ fuel ih =>
      intro cur pr hpr
      rw [periodsAux_succ] at hpr
      by_cases hle : nextPaymentDate c cur ≤ mat
      · rw [if_pos hle] at hpr
        cases hrec : periodsAux c mat fuel (nextPaymentDate c cur) with
        | none =>
            rw [hrec] at hpr
            simp at hpr
        | some l =>
            rw [hrec] at hpr
            simp only [Option.map_some', Option.getD_some, List.mem_cons] at hpr
            rcases hpr with rfl | hpr
            · exact hle
            · have := ih (nextPaymentDate c cur) pr
              rw [hrec] at this
              exact this hpr
      · rw [if_neg hle] at hpr
        simp at hpr

/-- C8 counterexample: for the non-standard cycle (Feb/May/Aug/Nov 15) and
input 2014-12-01, `next_payment_date` returns 2014-12-15 — a date in a month
that is not in the cycle, and not the weekend-rolled earliest anchor
(2015-02-15, rolled from Sunday to Monday 2015-02-16). -/
theorem C8_counterexample :
    nextPaymentDate nonstandardCycle ⟨2014, 12, 1⟩ = ⟨2014, 12, 15⟩
    ∧ weekendRollover (nextAnchorSpec nonstandardCycle ⟨2014, 12, 1⟩) = ⟨2015, 2, 16⟩
    ∧ (∀ a ∈ anchorCandidates nonstandardCycle ⟨2014, 12, 1⟩,
        a.month ≠ (nextPaymentDate nonstandardCycle ⟨2014, 12, 1⟩).month) := by
  refine ⟨by decide, by decide, by decide⟩

/-- C8 amended: for every valid input date, the standard-cycle
`next_payment_date` returns exactly the weekend-rolled earliest cycle anchor
strictly after the input; the same holds for the non-standard cycle except
for December inputs before the 15th (where it returns December 15 of the
same year, which is not an anchor of that cycle). -/
theorem C8_next_payment_date_spec (d : Date) (hv : Valid d) :
    nextPaymentDate standardCycle d = weekendRollover (nextAnchorSpec standardCycle d)
    ∧ (¬(d.month = 12 ∧ d.day < 15) →
      nextPaymentDate nonstandardCycle d
        = weekendRollover (nextAnchorSpec nonstandardCycle d)) := by
  obtain ⟨y, m, day⟩ := d
  constructor
  · unfold nextPaymentDate
    rw [show (13:Nat) = 11 + 1 + 1 from rfl, npd_std_eval 11 y m day hv]
    rfl
  · intro hdec
    unfold nextPaymentDate
    rw [show (13:Nat) = 10 + 1 + 1 + 1 from rfl, npd_nonstd_eval 10 y m day hv hdec]
    rfl

/-- Witness for C8 at the spec's concrete instance: from 2014-02-28 the
standard cycle yields 2014-03-20 (a Thursday, so not rolled), which is the
rolled earliest anchor. -/
theorem C8_witness :
    Valid (⟨2014, 2, 28⟩ : Date)
    ∧ nextPaymentDate standardCycle ⟨2014, 2, 28⟩
        = weekendRollover (nextAnchorSpec standardCycle ⟨2014, 2, 28⟩)
    ∧ nextPaymentDate standardCycle ⟨2014, 2, 28⟩ = ⟨2014, 3, 20⟩ :=
  ⟨by decide, (C8_next_payment_date_spec ⟨2014, 2, 28⟩ (by decide)).1, by decide⟩

/-- C9: for every valid date and both cycles, `next_payment_date` returns a
strictly later date; consequently the premium-leg `while` loop of
`standard_cds_mtm_value` terminates within its day-count fuel for every valid
maturity and start date, and every coupon period it collects ends at or
before the maturity date. -/
theorem C9_next_payment_strictly_later_and_loop_terminates :
    (∀ d : Date, Valid d →
      d < nextPaymentDate standardCycle d ∧ d < nextPaymentDate nonstandardCycle d)
    ∧ (∀ mat cur : Date, Valid mat → Valid cur →
      (periodsAux standardCycle mat (periodsFuel mat cur) cur).isSome = true)
    ∧ (∀ mat cur : Date, ∀ pr ∈ periods standardCycle mat cur, pr.2 ≤ mat) := by
  refine ⟨?_, ?_, ?_⟩
  · intro d hv
    exact ⟨(npd_std_valid_lt d hv).2, (npd_nonstd_valid_lt d hv).2⟩
  · intro mat cur hmat hcur
    apply periodsAux_isSome standardCycle npd_std_valid_lt mat hmat (periodsFuel mat cur) cur hcur
    unfold periodsFuel
    omega
  · intro mat cur pr hpr
    exact periods_ends_le standardCycle mat (periodsFuel mat cur) cur pr hpr

/-- Witness for C9: from the effective date 2014-03-01 both cycles step
strictly forward, and the walk to the first pillar 2014-09-22 terminates. -/
theorem C9_witness :
    (effectiveDate < nextPaymentDate standardCycle effectiveDate
      ∧ effectiveDate < nextPaymentDate nonstandardCycle effectiveDate)
    ∧ (periodsAux standardCycle ⟨2014, 9, 22⟩
        (periodsFuel ⟨2014, 9, 22⟩ effectiveDate) effectiveDate).isSome = true :=
  ⟨C9_next_payment_strictly_later_and_loop_terminates.1 effectiveDate (by decide),
    C9_next_payment_strictly_later_and_loop_terminates.2.1 ⟨2014, 9, 22⟩ effectiveDate
      (by decide) (by decide)⟩

end CdsValuation
